import Mathlib

/-!
Verification of the casefile-extractor scrape-and-analyze pipeline.

The development shallowly embeds the regex-based analyze endpoint
(`normalizeUrl`, `isImageUrl`, `extractTextContent`, `extractTitle`,
`extractLinks`, `extractImages`, `buildPrompt`, the crawl loop, image
deduplication, the code-fence stripping of the model response, and the
response shaping step of `POST`), together with the two small pieces of the
streaming endpoint that differ (the source-link cap of 12 and the
width/height icon filter).  JavaScript platform primitives used by the code
(`String.prototype.split`, `includes`, `trim`, `toLowerCase`, `slice`,
`parseInt`, the WHATWG `URL` constructor, and `JSON.parse`) are modelled as
executable Lean functions over `List Char`; network fetches and the model
call are modelled as oracles passed to the pipeline function.
-/

namespace Casefile

/-! ## JavaScript string primitives -/

/-- Model of `String.prototype.split` with a non-empty string separator:
scan left to right, cutting at each non-overlapping occurrence of the
separator.  Fuel-structural so that the kernel can evaluate it; one unit of
fuel is consumed per step and every step consumes at least one character,
so `s.length + 1` fuel always suffices. -/
def splitAux (sep : List Char) : Nat → List Char → List Char → List (List Char)
  | 0, s, acc => [acc.reverse ++ s]
  | Nat.succ fuel, s, acc =>
    if sep ≠ [] ∧ sep.isPrefixOf s then
      acc.reverse :: splitAux sep fuel (s.drop sep.length) []
    else
      match s with
      | [] => [acc.reverse]
      | c :: rest => splitAux sep fuel rest (c :: acc)

/-- Model of JavaScript `s.split(sep)` for a non-empty `sep`. -/
def jsSplit (s sep : String) : List String :=
  (splitAux sep.data (s.data.length + 1) s.data []).map String.mk

/-- Model of JavaScript `s.includes(sub)` for a non-empty `sub`: true iff
the split produced more than one part. -/
def jsIncludes (s sub : String) : Bool :=
  decide (2 ≤ (jsSplit s sub).length)

/-- JavaScript `\s` / trimmed whitespace (the ASCII fragment). -/
def isJsWs (c : Char) : Bool :=
  c = ' ' ∨ c = '\t' ∨ c = '\n' ∨ c = '\r' ∨ c = '\x0b' ∨ c = '\x0c'

/-- Model of JavaScript `s.trim()`: drop whitespace at both ends. -/
def jsTrimL (l : List Char) : List Char :=
  ((l.dropWhile isJsWs).reverse.dropWhile isJsWs).reverse

/-- Model of JavaScript `s.trim()` on `String`. -/
def jsTrim (s : String) : String :=
  String.mk (jsTrimL s.data)

/-- Model of JavaScript `s.toLowerCase()` (ASCII fragment, per character). -/
def jsToLower (s : String) : String :=
  String.mk (s.data.map Char.toLower)

/-- Model of JavaScript `s.slice(0, n)`: the first `n` characters. -/
def jsSlice (s : String) (n : Nat) : String :=
  String.mk (s.data.take n)

/-- Numeric value of a string of decimal digits. -/
def natOfDigits (ds : List Char) : Nat :=
  ds.foldl (fun n c => n * 10 + (c.toNat - '0'.toNat)) 0

/-- Model of JavaScript `parseInt(s)` (base 10): skip leading whitespace,
accept an optional sign, then read a maximal run of digits; `none` models
`NaN` (no digits found). -/
def jsParseInt (s : String) : Option Int :=
  let l := s.data.dropWhile isJsWs
  let (neg, l) : Bool × List Char :=
    match l with
    | '-' :: rest => (true, rest)
    | '+' :: rest => (false, rest)
    | _ => (false, l)
  let ds := l.takeWhile Char.isDigit
  if ds = [] then none
  else some (if neg then -(natOfDigits ds : Int) else (natOfDigits ds : Int))

/-! ## URL model

The code calls the WHATWG `URL` constructor (`new URL(url, baseUrl)`) and
reads `protocol`, `href`, and `hostname`.  We model the http/https fragment
of that platform API: scheme recognition, `//`-authority parsing, resolution
of scheme-relative, absolute-path, query, fragment, and relative references
against an http(s) base, and serialisation back to `href` with the fragment
removed.  Dot-segment normalisation, userinfo, and non-special schemes are
outside the model; inputs that use them simply fail to parse (`none`), which
only ever removes candidates from the extraction output. -/

/-- Characters allowed in a URL scheme after the initial letter. -/
def isSchemeChar (c : Char) : Bool :=
  c.isAlphanum || c = '+' || c = '-' || c = '.'

/-- Split a leading `scheme:` off a URL string, lowercasing the scheme.
Returns `none` when the string has no scheme prefix. -/
def splitScheme (s : String) : Option (String × String) :=
  match s.data with
  | [] => none
  | c :: _ =>
    if c.isAlpha then
      let schemeChars := s.data.takeWhile isSchemeChar
      match s.data.drop schemeChars.length with
      | ':' :: rest => some (String.mk (schemeChars.map Char.toLower), String.mk rest)
      | _ => none
    else none

/-- A parsed http/https URL: lowercase scheme, lowercase authority, path
beginning with `/`, query including its leading `?` (fragment already
stripped, as `normalizeUrl` clears it). -/
structure UrlModel where
  scheme : String
  host : String
  path : String
  query : String
  deriving DecidableEq, Repr

/-- Parse `path?query#fragment` characters (everything after the authority),
discarding the fragment. -/
def parsePathQuery (l : List Char) : String × String :=
  let path := l.takeWhile (fun c => decide (c ≠ '?') && decide (c ≠ '#'))
  let rest := l.drop path.length
  let query :=
    match rest with
    | '?' :: _ => rest.takeWhile (fun c => decide (c ≠ '#'))
    | _ => []
  (String.mk (if path = [] then ['/'] else path), String.mk query)

/-- Parse an authority followed by path/query/fragment, for a known scheme. -/
def parseAfterSlashes (scheme : String) (l : List Char) : Option UrlModel :=
  let host := l.takeWhile (fun c => decide (c ≠ '/') && decide (c ≠ '?') && decide (c ≠ '#'))
  if host = [] then none
  else
    let (path, query) := parsePathQuery (l.drop host.length)
    some ⟨scheme, String.mk (host.map Char.toLower), path, query⟩

/-- Parse an absolute `http://` / `https://` URL. -/
def parseHttpUrl (s : String) : Option UrlModel :=
  match splitScheme s with
  | none => none
  | some (sch, rest) =>
    if sch = "http" ∨ sch = "https" then
      match rest.data with
      | '/' :: '/' :: after => parseAfterSlashes sch after
      | _ => none
    else none

/-- Resolve a possibly-relative URL string against a base URL string,
modelling `new URL(url, baseUrl)` on the http/https fragment.  `none`
models the constructor throwing. -/
def resolveUrl (url baseUrl : String) : Option UrlModel :=
  match splitScheme url with
  | some (sch, rest) =>
    if sch = "http" ∨ sch = "https" then parseHttpUrl url
    else some ⟨sch, "", String.mk rest.data, ""⟩
  | none =>
    match parseHttpUrl baseUrl with
    | none => none
    | some b =>
      match url.data with
      | [] => some b
      | '/' :: '/' :: after => parseAfterSlashes b.scheme after
      | '/' :: _ =>
        let (path, query) := parsePathQuery url.data
        some ⟨b.scheme, b.host, path, query⟩
      | '?' :: _ => some ⟨b.scheme, b.host, b.path, String.mk (url.data.takeWhile (fun c => decide (c ≠ '#')))⟩
      | '#' :: _ => some b
      | _ =>
        let dir := (b.path.data.reverse.dropWhile (fun c => decide (c ≠ '/'))).reverse
        let p := url.data.takeWhile (fun c => decide (c ≠ '?') && decide (c ≠ '#'))
        let rest := url.data.drop p.length
        let query :=
          match rest with
          | '?' :: _ => rest.takeWhile (fun c => decide (c ≠ '#'))
          | _ => []
        some ⟨b.scheme, b.host, String.mk (dir ++ p), String.mk query⟩

/-- Serialise a parsed URL back to its `href` (fragment already dropped). -/
def urlHref (u : UrlModel) : String :=
  u.scheme ++ "://" ++ u.host ++ u.path ++ u.query

/-- Model of `new URL(x).hostname`: the authority without any port. -/
def urlHostname (s : String) : Option String :=
  (parseHttpUrl s).map fun u => String.mk (u.host.data.takeWhile (fun c => decide (c ≠ ':')))

/-- The code's `normalizeUrl`: resolve against the base, reject any scheme
other than http/https, clear the fragment, and return the `href`. -/
def normalizeUrl (url baseUrl : String) : Option String :=
  match resolveUrl url baseUrl with
  | none => none
  | some u =>
    if u.scheme = "http" ∨ u.scheme = "https" then some (urlHref u) else none

/-- The raster extensions accepted by `isImageUrl`. -/
def imageExtensions : List String :=
  [".jpg", ".jpeg", ".png", ".gif", ".webp"]

/-- The code's `isImageUrl`: the lowercased URL merely has to contain one of
the extensions as a substring. -/
def isImageUrl (url : String) : Bool :=
  let lower := jsToLower url
  imageExtensions.any fun ext => jsIncludes lower ext

/-! ## HTML scanners

The endpoint extracts structure from raw HTML with JavaScript regexes.  We
model each regex by a character-level scanner with the same leftmost-match,
greedy-with-backtracking semantics, restricted to the exact patterns the
code uses. -/

/-- Case-insensitive prefix test (regexes carry the `i` flag). -/
def ciIsPrefix (pat s : List Char) : Bool :=
  (s.take pat.length).map Char.toLower == pat.map Char.toLower

/-- A quote character, the character class `["']`. -/
def isQuote (c : Char) : Bool :=
  c = '"' ∨ c = '\''

/-- Attempt to match `attr=["'](value)["']` at the start of `l`, where the
value is a maximal run of non-quote characters of length at least `minLen`
(the regexes use `+` for `src`/`href`/`content` and `*` for `alt`).
Returns the consumed length and the captured value. -/
def tryAttrValueAt (attr : List Char) (minLen : Nat) (l : List Char) : Option (Nat × List Char) :=
  if ciIsPrefix (attr ++ ['=']) l then
    match l.drop (attr.length + 1) with
    | [] => none
    | q :: rest =>
      if isQuote q then
        let v := rest.takeWhile fun c => ! isQuote c
        match rest.drop v.length with
        | [] => none
        | q2 :: _ =>
          if isQuote q2 ∧ minLen ≤ v.length then
            some (attr.length + v.length + 3, v)
          else none
      else none
  else none

/-- Attempt to match the pattern `<TAG[^>]+ATTR=["']([^"']+)["'][^>]*>` (as
in the link and image regexes) at the start of `s`.  The `[^>]+` run is
matched greedily with backtracking: the largest feasible length is tried
first.  Returns the full match length and the captured attribute value. -/
def matchTagAt (tag attr : List Char) (minLen : Nat) (s : List Char) : Option (Nat × List Char) :=
  let openTag := '<' :: tag
  if ciIsPrefix openTag s then
    let r0 := s.drop openTag.length
    let limit := (r0.takeWhile fun c => decide (c ≠ '>')).length
    ((List.range limit).reverse.map (· + 1)).findSome? fun p =>
      match tryAttrValueAt attr minLen (r0.drop p) with
      | none => none
      | some (alen, v) =>
        let tail := r0.drop (p + alen)
        let gap := (tail.takeWhile fun c => decide (c ≠ '>')).length
        if gap < tail.length then
          some (openTag.length + p + alen + gap + 1, v)
        else none
  else none

/-- Global scan for a tag/attribute regex (`g` flag): after each match the
scan resumes at the end of the match; otherwise it advances one character.
Each step consumes at least one character, so fuel `s.length + 1`
suffices.  Produces (full match, captured value) pairs in order. -/
def scanTags (tag attr : List Char) (minLen : Nat) : Nat → List Char → List (List Char × List Char)
  | 0, _ => []
  | Nat.succ fuel, s =>
    match s with
    | [] => []
    | _ :: rest =>
      match matchTagAt tag attr minLen s with
      | some (len, v) => (s.take len, v) :: scanTags tag attr minLen fuel (s.drop (max len 1))
      | none => scanTags tag attr minLen fuel rest

/-- All matches of `/<a[^>]+href=["']([^"']+)["'][^>]*>/gi`. -/
def aTagMatches (html : String) : List (List Char × List Char) :=
  scanTags ['a'] "href".data 1 (html.data.length + 1) html.data

/-- All matches of `/<img[^>]+src=["']([^"']+)["'][^>]*>/gi`. -/
def imgTagMatches (html : String) : List (List Char × List Char) :=
  scanTags "img".data "src".data 1 (html.data.length + 1) html.data

/-- Leftmost match of `attr=["'](value)["']` anywhere in `s`. -/
def findAttrValue (attr : List Char) (minLen : Nat) (s : List Char) : Option (List Char) :=
  (List.range (s.length + 1)).findSome? fun i =>
    (tryAttrValueAt attr minLen (s.drop i)).map (·.2)

/-- The image regex's `alt` capture: `/alt=["']([^"']*)["']/i` over the
matched tag text. -/
def altMatch (tagText : List Char) : Option (List Char) :=
  findAttrValue "alt".data 0 tagText

/-- Attempt `width=["']?(\d+)` at the start of `s`: `width=`, an optional
quote, then a maximal non-empty digit run. -/
def tryWidthAt (s : List Char) : Option (List Char) :=
  if ciIsPrefix "width=".data s then
    let r := s.drop 6
    let r2 :=
      match r with
      | q :: rest => if isQuote q then rest else r
      | [] => r
    let ds := r2.takeWhile Char.isDigit
    if ds = [] then none else some ds
  else none

/-- Leftmost match of `/width=["']?(\d+)/i` over the matched tag text. -/
def widthMatch (tagText : List Char) : Option (List Char) :=
  (List.range (tagText.length + 1)).findSome? fun i => tryWidthAt (tagText.drop i)

/-- Attempt the Open-Graph meta pattern
`<meta[^>]+property=["']og:image["'][^>]+content=["']([^"']+)["']` at the
start of `s`, greedy on both `[^>]+` runs. -/
def tryOgAt (s : List Char) : Option (List Char) :=
  if ciIsPrefix "<meta".data s then
    let r0 := s.drop 5
    let limit1 := (r0.takeWhile fun c => decide (c ≠ '>')).length
    ((List.range limit1).reverse.map (· + 1)).findSome? fun p1 =>
      let r1 := r0.drop p1
      if ciIsPrefix "property=".data r1 then
        match r1.drop 9 with
        | [] => none
        | q :: r2 =>
          if isQuote q ∧ ciIsPrefix "og:image".data r2 then
            match r2.drop 8 with
            | [] => none
            | q2 :: r3 =>
              if isQuote q2 then
                let limit2 := (r3.takeWhile fun c => decide (c ≠ '>')).length
                ((List.range limit2).reverse.map (· + 1)).findSome? fun p2 =>
                  (tryAttrValueAt "content".data 1 (r3.drop p2)).map (·.2)
              else none
          else none
      else none
  else none

/-- Leftmost match of the Open-Graph image regex over the page. -/
def ogImageMatch (html : String) : Option (List Char) :=
  (List.range (html.data.length + 1)).findSome? fun i => tryOgAt (html.data.drop i)

/-- Attempt `<NAME[^>]*>([^<]+)</NAME>` at the start of `s` (the `h1` and
`title` regexes): the capture is a maximal non-empty run of non-`<`
characters followed by the closing tag. -/
def tryElemAt (name : List Char) (s : List Char) : Option (List Char) :=
  if ciIsPrefix ('<' :: name) s then
    let r0 := s.drop (name.length + 1)
    let gap := (r0.takeWhile fun c => decide (c ≠ '>')).length
    if gap < r0.length then
      let r1 := r0.drop (gap + 1)
      let v := r1.takeWhile fun c => decide (c ≠ '<')
      if v ≠ [] ∧ ciIsPrefix ('<' :: '/' :: (name ++ ['>'])) (r1.drop v.length) then
        some v
      else none
    else none
  else none

/-- Leftmost match of the element-content regex over the page. -/
def elemMatch (name : List Char) (html : String) : Option (List Char) :=
  (List.range (html.data.length + 1)).findSome? fun i => tryElemAt name (html.data.drop i)

/-- One replacement pass of `/<TAG[^>]*>[\s\S]*?<\/TAG>/gi` with the empty
string: on a match (open tag, a `>`, then the nearest close tag) the whole
block is dropped and scanning resumes after it; otherwise the scan emits
the character and advances. -/
def findCiIdx (pat : List Char) (s : List Char) : Option Nat :=
  (List.range (s.length + 1)).findSome? fun i =>
    if ciIsPrefix pat (s.drop i) then some i else none

/-- Remove `openTag ... closeTag` blocks, as in the script/style strips. -/
def removeBlocks (openTag closeTag : List Char) : Nat → List Char → List Char
  | 0, s => s
  | Nat.succ fuel, s =>
    match s with
    | [] => []
    | c :: rest =>
      if ciIsPrefix openTag s then
        let r0 := s.drop openTag.length
        let gap := (r0.takeWhile fun x => decide (x ≠ '>')).length
        if gap < r0.length then
          let r1 := r0.drop (gap + 1)
          match findCiIdx closeTag r1 with
          | some i => removeBlocks openTag closeTag fuel (r1.drop (i + closeTag.length))
          | none => c :: removeBlocks openTag closeTag fuel rest
        else c :: removeBlocks openTag closeTag fuel rest
      else c :: removeBlocks openTag closeTag fuel rest

/-- The replacement `/<[^>]+>/g` with a space: each `<`, a non-empty run of
non-`>` characters, and the closing `>` collapse to one space. -/
def stripTags : Nat → List Char → List Char
  | 0, s => s
  | Nat.succ fuel, s =>
    match s with
    | [] => []
    | c :: rest =>
      if c = '<' then
        let gap := (rest.takeWhile fun x => decide (x ≠ '>')).length
        if 1 ≤ gap ∧ gap < rest.length then
          ' ' :: stripTags fuel (rest.drop (gap + 1))
        else c :: stripTags fuel rest
      else c :: stripTags fuel rest

/-- The replacement `/\s+/g` with a single space. -/
def collapseWsAux : Bool → List Char → List Char
  | _, [] => []
  | prevWs, c :: rest =>
    if isJsWs c then
      if prevWs then collapseWsAux true rest else ' ' :: collapseWsAux true rest
    else c :: collapseWsAux false rest

/-- The code's `extractTextContent`: drop script blocks, drop style blocks,
replace remaining tags with spaces, collapse whitespace, trim. -/
def extractTextContent (html : String) : String :=
  let l := html.data
  let l := removeBlocks "<script".data "</script>".data (l.length + 1) l
  let l := removeBlocks "<style".data "</style>".data (l.length + 1) l
  let l := stripTags (l.length + 1) l
  jsTrim (String.mk (collapseWsAux false l))

/-- The code's `extractTitle`: first `h1` content, else the `title` content
up to a pipe separator, else the fallback literal. -/
def extractTitle (html : String) : String :=
  match elemMatch "h1".data html with
  | some v => jsTrim (String.mk v)
  | none =>
    match elemMatch "title".data html with
    | some v => jsTrim ((jsSplit (String.mk v) "|").getD 0 "")
    | none => "Untitled"

/-! ## Extraction data model and page extraction -/

/-- An image candidate, as accumulated by the crawl. -/
structure ImageCandidate where
  url : String
  alt : String
  caption : String
  context : String
  sourcePageUrl : String
  sourcePageTitle : String
  deriving DecidableEq, Repr

/-- A successfully crawled source page. -/
structure SourcePage where
  url : String
  title : String
  text : String
  deriving DecidableEq, Repr

/-- Insertion-order deduplication, modelling `Array.from(new Set(links))`:
keep a string when it has not been seen yet. -/
def jsSetDedupAux : List String → List String → List String
  | [], _ => []
  | s :: rest, seen =>
    if s ∈ seen then jsSetDedupAux rest seen
    else s :: jsSetDedupAux rest (s :: seen)

/-- Insertion-order deduplication of a string list. -/
def jsSetDedup (l : List String) : List String :=
  jsSetDedupAux l []

/-- The JSON endpoint's source-link cap. -/
def maxSources : Nat := 10

/-- The JSON endpoint's per-page image cap. -/
def maxImagesPerPage : Nat := 6

/-- The code's `extractLinks`: every `href` capture, normalized, kept when
it does not contain the hardcoded seed-site literal, then deduplicated in
insertion order and capped. -/
def extractLinks (html baseUrl : String) : List String :=
  let links := (aTagMatches html).filterMap fun m =>
    match normalizeUrl (String.mk m.2) baseUrl with
    | some n => if jsIncludes n "casefilepodcast.com" then none else some n
    | none => none
  (jsSetDedup links).take maxSources

/-- Processing of one matched `img` tag inside `extractImages`: normalize
the captured `src`, require `isImageUrl`, read the `alt` capture, read the
width (999 when the width pattern is absent), and drop the tag when the
width is under 100. -/
def processImgTag (pageUrl pageTitle : String) (m : List Char × List Char) : Option ImageCandidate :=
  match normalizeUrl (String.mk m.2) pageUrl with
  | none => none
  | some imageUrl =>
    if ! isImageUrl imageUrl then none
    else
      let alt := ((altMatch m.1).map String.mk).getD ""
      let width :=
        match widthMatch m.1 with
        | some ds => natOfDigits ds
        | none => 999
      if width < 100 then none
      else some ⟨imageUrl, alt, "", "", pageUrl, pageTitle⟩

/-- The image loop of `extractImages`: walk the matches in order, keeping
accepted candidates until the per-page cap is reached. -/
def collectImages (pageUrl pageTitle : String) : List (List Char × List Char) → List ImageCandidate → List ImageCandidate
  | [], acc => acc.reverse
  | m :: ms, acc =>
    if maxImagesPerPage ≤ acc.length then acc.reverse
    else
      match processImgTag pageUrl pageTitle m with
      | some c => collectImages pageUrl pageTitle ms (c :: acc)
      | none => collectImages pageUrl pageTitle ms acc

/-- The code's `extractImages`: the capped image-tag loop, then the
Open-Graph image appended as one more candidate when the cap has not been
reached. -/
def extractImages (html pageUrl pageTitle : String) : List ImageCandidate :=
  let base := collectImages pageUrl pageTitle (imgTagMatches html) []
  match ogImageMatch html with
  | none => base
  | some og =>
    if base.length < maxImagesPerPage then
      match normalizeUrl (String.mk og) pageUrl with
      | some u =>
        if isImageUrl u then base ++ [⟨u, pageTitle, "", "", pageUrl, pageTitle⟩]
        else base
      | none => base
    else base

/-- The deduplication loop of `POST`: keep an image when its URL has not
been seen, remembering seen URLs. -/
def dedupImagesAux : List ImageCandidate → List String → List ImageCandidate
  | [], _ => []
  | img :: rest, seen =>
    if img.url ∈ seen then dedupImagesAux rest seen
    else img :: dedupImagesAux rest (img.url :: seen)

/-- Deduplicate accumulated image candidates by URL, first occurrence kept. -/
def dedupImages (l : List ImageCandidate) : List ImageCandidate :=
  dedupImagesAux l []

/-- One line of the prompt's image list. -/
def imageLine (p : Nat × ImageCandidate) : String :=
  "[IMG_" ++ toString p.1 ++ "] URL: " ++ p.2.url ++ " | Alt: " ++
    (if p.2.alt = "" then "(none)" else p.2.alt) ++ " | Source: " ++ p.2.sourcePageTitle

/-- One source-text block of the prompt. -/
def sourceBlock (p : SourcePage) : String :=
  "--- SOURCE: " ++ p.title ++ " ---\n" ++ jsSlice p.text 2000

/-- The code's `buildPrompt` (JSON endpoint): deterministic template over
the episode title, truncated episode text, up to six source pages, and up
to thirty enumerated image candidates. -/
def buildPrompt (episodeTitle episodeText : String) (sourcePages : List SourcePage)
    (allImages : List ImageCandidate) : String :=
  let imageList := String.intercalate "\n" (((allImages.take 30).enum).map imageLine)
  let sourceTexts := String.intercalate "\n\n" ((sourcePages.take 6).map sourceBlock)
  "Analyze this true crime podcast episode and extract key people and locations.\n\n" ++
  "EPISODE: \"" ++ episodeTitle ++ "\"\n\n" ++
  "EPISODE TEXT:\n" ++ jsSlice episodeText 8000 ++ "\n\n" ++
  "SOURCE TEXTS:\n" ++ sourceTexts ++ "\n\n" ++
  "IMAGE CANDIDATES:\n" ++ imageList ++ "\n\n" ++
  "Extract the main people (victims, suspects, investigators) and key locations. Match relevant images.\n\n" ++
  "RULES:\n" ++
  "- Only use images from the list above (reference by IMG_X)\n" ++
  "- For pronouns: only include if clearly stated (he/him, she/her, they/them, or empty string)\n" ++
  "- Keep descriptions factual, from source material only\n\n" ++
  "Return ONLY valid JSON:\n" ++
  "\x7b\n" ++
  "  \"episode_title\": \"string\",\n" ++
  "  \"summary\": \"2-3 sentence case overview\",\n" ++
  "  \"entities\": [\n" ++
  "    \x7b\n" ++
  "      \"name\": \"Full Name\",\n" ++
  "      \"type\": \"Person or Location\",\n" ++
  "      \"role\": \"victim/suspect/investigator/witness/location/other\",\n" ++
  "      \"description\": \"1-2 factual sentences\",\n" ++
  "      \"pronouns\": \"he/him or she/her or they/them or empty\",\n" ++
  "      \"images\": [\x7b \"image_index\": 0, \"relevance\": \"why this image relates\" \x7d]\n" ++
  "    \x7d\n" ++
  "  ]\n" ++
  "\x7d"

/-! ## JSON values and `JSON.parse`

The endpoint parses the model's response with the platform's `JSON.parse`.
We model JSON values and a parser for the integer-number fragment of JSON
(the schema the code works with uses only integer numbers); fractional and
exponent literals are rejected by the model rather than parsed. -/

/-- A JSON value (numbers restricted to integers). -/
inductive Json where
  | null
  | bool (b : Bool)
  | num (n : Int)
  | str (s : String)
  | arr (elems : List Json)
  | obj (fields : List (String × Json))
  deriving Repr

/-- JSON insignificant whitespace. -/
def isJsonWs (c : Char) : Bool :=
  c = ' ' ∨ c = '\t' ∨ c = '\n' ∨ c = '\r'

/-- Value of a hexadecimal digit. -/
def hexVal (c : Char) : Option Nat :=
  if c.isDigit then some (c.toNat - '0'.toNat)
  else if 'a' ≤ c ∧ c ≤ 'f' then some (c.toNat - 'a'.toNat + 10)
  else if 'A' ≤ c ∧ c ≤ 'F' then some (c.toNat - 'A'.toNat + 10)
  else none

/-- Parse the remainder of a JSON string literal (after the opening quote),
handling the escape sequences of the JSON grammar.  Returns the decoded
string and the input after the closing quote. -/
def parseStrAux : Nat → List Char → List Char → Option (String × List Char)
  | 0, _, _ => none
  | Nat.succ fuel, acc, s =>
    match s with
    | [] => none
    | '"' :: rest => some (String.mk acc.reverse, rest)
    | '\\' :: e :: rest =>
      match e with
      | '"' => parseStrAux fuel ('"' :: acc) rest
      | '\\' => parseStrAux fuel ('\\' :: acc) rest
      | '/' => parseStrAux fuel ('/' :: acc) rest
      | 'b' => parseStrAux fuel ('\x08' :: acc) rest
      | 'f' => parseStrAux fuel ('\x0c' :: acc) rest
      | 'n' => parseStrAux fuel ('\n' :: acc) rest
      | 'r' => parseStrAux fuel ('\r' :: acc) rest
      | 't' => parseStrAux fuel ('\t' :: acc) rest
      | 'u' =>
        match rest with
        | h1 :: h2 :: h3 :: h4 :: r =>
          match hexVal h1, hexVal h2, hexVal h3, hexVal h4 with
          | some a, some b, some c, some d =>
            parseStrAux fuel (Char.ofNat (((a * 16 + b) * 16 + c) * 16 + d) :: acc) r
          | _, _, _, _ => none
        | _ => none
      | _ => none
    | c :: rest => parseStrAux fuel (c :: acc) rest

/-- A partially-built JSON container on the parser stack. -/
inductive PFrame where
  | arrF (acc : List Json)
  | objF (acc : List (String × Json)) (key : String)

/-- Iterative JSON parser: the `Option Json` state is `none` when a value
is expected and `some v` when value `v` has just been completed and the
enclosing container continues.  Every step consumes at least one input
character, so fuel `input length + 2` suffices. -/
def pLoop : Nat → Option Json → List PFrame → List Char → Option Json
  | 0, _, _, _ => none
  | Nat.succ fuel, none, stack, s =>
    match s.dropWhile isJsonWs with
    | [] => none
    | '[' :: rest =>
      match rest.dropWhile isJsonWs with
      | ']' :: r2 => pLoop fuel (some (.arr [])) stack r2
      | _ => pLoop fuel none (.arrF [] :: stack) rest
    | '\x7b' :: rest =>
      match rest.dropWhile isJsonWs with
      | '\x7d' :: r2 => pLoop fuel (some (.obj [])) stack r2
      | '"' :: r2 =>
        match parseStrAux (r2.length + 1) [] r2 with
        | some (k, r3) =>
          match r3.dropWhile isJsonWs with
          | ':' :: r4 => pLoop fuel none (.objF [] k :: stack) r4
          | _ => none
        | none => none
      | _ => none
    | '"' :: rest =>
      match parseStrAux (rest.length + 1) [] rest with
      | some (str, r2) => pLoop fuel (some (.str str)) stack r2
      | none => none
    | 't' :: rest =>
      if "rue".data.isPrefixOf rest then pLoop fuel (some (.bool true)) stack (rest.drop 3)
      else none
    | 'f' :: rest =>
      if "alse".data.isPrefixOf rest then pLoop fuel (some (.bool false)) stack (rest.drop 4)
      else none
    | 'n' :: rest =>
      if "ull".data.isPrefixOf rest then pLoop fuel (some .null) stack (rest.drop 3)
      else none
    | c :: rest =>
      let l2 := if c = '-' then rest else c :: rest
      let ds := l2.takeWhile Char.isDigit
      if ds = [] then none
      else if 2 ≤ ds.length ∧ ds.headD '0' = '0' then none
      else
        let next := l2.drop ds.length
        let bad : Bool :=
          match next with
          | x :: _ => x = '.' ∨ x = 'e' ∨ x = 'E'
          | [] => false
        if bad then none
        else
          let n : Int := if c = '-' then -(natOfDigits ds : Int) else (natOfDigits ds : Int)
          pLoop fuel (some (.num n)) stack next
  | Nat.succ _, some v, [], s =>
    if s.dropWhile isJsonWs = [] then some v else none
  | Nat.succ fuel, some v, .arrF acc :: stack, s =>
    match s.dropWhile isJsonWs with
    | ',' :: r2 => pLoop fuel none (.arrF (v :: acc) :: stack) r2
    | ']' :: r2 => pLoop fuel (some (.arr (v :: acc).reverse)) stack r2
    | _ => none
  | Nat.succ fuel, some v, .objF acc k :: stack, s =>
    match s.dropWhile isJsonWs with
    | ',' :: r2 =>
      match r2.dropWhile isJsonWs with
      | '"' :: r3 =>
        match parseStrAux (r3.length + 1) [] r3 with
        | some (k2, r4) =>
          match r4.dropWhile isJsonWs with
          | ':' :: r5 => pLoop fuel none (.objF ((k, v) :: acc) k2 :: stack) r5
          | _ => none
        | none => none
      | _ => none
    | '\x7d' :: r2 => pLoop fuel (some (.obj ((k, v) :: acc).reverse)) stack r2
    | _ => none

/-- Model of `JSON.parse` (integer-number fragment). -/
def Json.parse (s : String) : Option Json :=
  pLoop (s.data.length + 2) none [] s.data

/-- The fence literal `` ```json ``. -/
def fenceJson : String := "```json"

/-- The fence literal `` ``` ``. -/
def fenceTicks : String := "```"

/-- The response-shaping fence strip: take the text after a `` ```json ``
marker (or after the first `` ``` ``) and before the next `` ``` ``. -/
def stripFence (text : String) : String :=
  if jsIncludes text fenceJson then
    (jsSplit ((jsSplit text fenceJson).getD 1 "") fenceTicks).getD 0 ""
  else if jsIncludes text fenceTicks then
    (jsSplit ((jsSplit text fenceTicks).getD 1 "") fenceTicks).getD 0 ""
  else text

/-- The full response-text handling of the endpoint: strip an optional
fence, trim, parse as JSON. -/
def stripAndParse (text : String) : Option Json :=
  Json.parse (jsTrim (stripFence text))

/-! ## Response shaping

Model of the result assembly at the end of `POST`.  JavaScript property
access on `null` throws, access of a missing property yields `undefined`,
and `x || d` falls back on falsy values; `Option` models `undefined` and an
outer `Option` models a thrown `TypeError` (caught by the endpoint's
enclosing `try`, producing the generic server error). -/

/-- JavaScript property access `v.k`: `none` models a throw (access on
`null`), `some none` models `undefined`, `some (some j)` a present field.
For duplicate keys the last occurrence wins, as in `JSON.parse`. -/
def jaccess : Json → String → Option (Option Json)
  | .null, _ => none
  | .obj fields, k => some (((fields.reverse).find? fun f => f.1 == k).map (·.2))
  | _, _ => some none

/-- JavaScript truthiness of a JSON value. -/
def jTruthy : Json → Bool
  | .null => false
  | .bool b => b
  | .num n => decide (n ≠ 0)
  | .str s => decide (s ≠ "")
  | .arr _ => true
  | .obj _ => true

/-- JavaScript `x || d` where `x` may be `undefined`. -/
def jsOrJson (x : Option Json) (d : Json) : Json :=
  match x with
  | some v => if jTruthy v then v else d
  | none => d

/-- A shaped image entry of the final result (`relevance` is `none` for the
`allImages` entries, which do not carry one). -/
structure ShapedImage where
  url : String
  alt : String
  caption : String
  sourcePageUrl : String
  attribution : String
  relevance : Option Json
  deriving Repr

/-- A shaped entity of the final result; fields without a `|| ''` fallback
hold the raw accessed value (`none` when the field was absent). -/
structure ShapedEntity where
  name : Option Json
  etype : Option Json
  role : Json
  description : Option Json
  pronouns : Json
  images : List ShapedImage
  deriving Repr

/-- The final result object assembled by the endpoint. -/
structure AnalysisResult where
  episodeTitle : String
  episodeUrl : String
  summary : Json
  entities : List ShapedEntity
  allImages : List ShapedImage
  deriving Repr

/-- Map one entity image reference back into the deduplicated image array:
an index that is not a number within range yields `null` (here
`some none`), which the subsequent `.filter(Boolean)` drops; building the
entry for an in-range index derives the attribution hostname (a throwing
`new URL` aborts shaping). -/
def shapeImageRef (imgs : List ImageCandidate) (ref : Json) : Option (Option ShapedImage) :=
  match jaccess ref "image_index" with
  | none => none
  | some idxv =>
    let img? : Option ImageCandidate :=
      match idxv with
      | some (.num n) => if n < 0 then none else imgs[n.toNat]?
      | _ => none
    match img? with
    | none => some none
    | some img =>
      match urlHostname img.sourcePageUrl with
      | none => none
      | some host =>
        match jaccess ref "relevance" with
        | none => none
        | some rel =>
          some (some ⟨img.url, img.alt, img.caption, img.sourcePageUrl, host, rel⟩)

/-- Sequential fail-fast map, modelling JavaScript's `.map` over callbacks
that can throw: the first throw aborts the whole map. -/
def seqMap (f : α → Option β) : List α → Option (List β)
  | [] => some []
  | x :: xs =>
    match f x with
    | none => none
    | some y =>
      match seqMap f xs with
      | none => none
      | some ys => some (y :: ys)

/-- Shape one entity returned by the model: read its fields (throwing on a
`null` entity), default `role`/`pronouns` through `|| ''`, default a falsy
`images` to the empty array, map each image reference (throwing on a
non-array truthy `images`), and drop the `null` entries. -/
def shapeEntity (imgs : List ImageCandidate) (e : Json) : Option ShapedEntity :=
  match jaccess e "name", jaccess e "type", jaccess e "role", jaccess e "description",
      jaccess e "pronouns", jaccess e "images" with
  | some name, some etype, some rolev, some descv, some pronv, some imagesv =>
    match jsOrJson imagesv (.arr []) with
    | .arr refs =>
      match seqMap (shapeImageRef imgs) refs with
      | some shaped =>
        some ⟨name, etype, jsOrJson rolev (.str ""), descv, jsOrJson pronv (.str ""),
          shaped.filterMap id⟩
      | none => none
    | _ => none
  | _, _, _, _, _, _ => none

/-- The `allImages` cap of the JSON endpoint. -/
def allImagesCap : Nat := 50

/-- Build one `allImages` entry (the attribution hostname can throw). -/
def shapeAllImage (img : ImageCandidate) : Option ShapedImage :=
  (urlHostname img.sourcePageUrl).map fun host =>
    ⟨img.url, img.alt, img.caption, img.sourcePageUrl, host, none⟩

/-- Shape the parsed model response into the final result object. -/
def shapeResult (llm : Json) (uniqueImages : List ImageCandidate)
    (episodeTitle episodeUrl : String) : Option AnalysisResult :=
  match jaccess llm "summary", jaccess llm "entities" with
  | some summaryv, some entitiesv =>
    match jsOrJson entitiesv (.arr []) with
    | .arr es =>
      match seqMap (shapeEntity uniqueImages) es with
      | some entities =>
        match seqMap shapeAllImage (uniqueImages.take allImagesCap) with
        | some allImages =>
          some ⟨episodeTitle, episodeUrl, jsOrJson summaryv (.str ""), entities, allImages⟩
        | none => none
      | none => none
    | _ => none
  | _, _ => none

/-- The `anthropicData.content?.[0]?.text || ''` read of the model reply
body: property access on a `null` body throws (`none`); otherwise optional
chaining turns missing pieces into `undefined` and the `|| ''` fallback
yields the empty string for a missing or falsy text.  The result is the
JSON value assigned to `responseText` (a non-string value later makes the
code-fence handling throw). -/
def llmRespText (data : Json) : Option Json :=
  match jaccess data "content" with
  | none => none
  | some contentv =>
    let textv : Option Json :=
      match contentv with
      | none => none
      | some Json.null => none
      | some (Json.arr elems) =>
        match elems[0]? with
        | none => none
        | some Json.null => none
        | some el =>
          match jaccess el "text" with
          | none => none
          | some t => t
      | some v =>
        match jaccess v "0" with
        | none => none
        | some el =>
          match el with
          | none => none
          | some Json.null => none
          | some el2 =>
            match jaccess el2 "text" with
            | none => none
            | some t => t
    some (jsOrJson textv (.str ""))

/-! ## Crawl orchestration

Network effects are modelled by oracles: a fetch oracle mapping a URL to
its outcome and a model-call oracle mapping the prompt to the HTTP outcome
of the completion request. -/

/-- Outcome of one `fetch`: a thrown error (network failure or timeout) or
a response with status, optional content-type header, and body text. -/
inductive FetchOutcome where
  | failure
  | resp (status : Nat) (contentType : Option String) (body : String)

/-- `Response.ok`: status in the 2xx range. -/
def respOk (status : Nat) : Bool :=
  200 ≤ status ∧ status < 300

/-- Outcome of the model-service call: a thrown fetch error, or an HTTP
response with its `ok` flag and body text. -/
inductive LlmOutcome where
  | failure
  | resp (ok : Bool) (body : String)

/-- Accumulators of the crawl loop. -/
structure CrawlResult where
  pages : List SourcePage
  images : List ImageCandidate
  fetched : List String
  deriving Repr

/-- One iteration of the source-crawl loop: fetch the link; skip it on a
thrown fetch, a non-2xx status, or a content-type that is not HTML;
otherwise push the source page (title, text capped to 4000) and its
extracted images. -/
def crawlStep (oracle : String → FetchOutcome) (r : CrawlResult) (sourceUrl : String) : CrawlResult :=
  let r := { r with fetched := r.fetched ++ [sourceUrl] }
  match oracle sourceUrl with
  | .failure => r
  | .resp status ct body =>
    if ! respOk status then r
    else if ! jsIncludes (ct.getD "") "text/html" then r
    else
      let title := extractTitle body
      { r with
          pages := r.pages ++ [⟨sourceUrl, title, jsSlice (extractTextContent body) 4000⟩],
          images := r.images ++ extractImages body sourceUrl title }

/-- The sequential source-crawl loop. -/
def crawlSources (oracle : String → FetchOutcome) (links : List String) : CrawlResult :=
  links.foldl (crawlStep oracle) ⟨[], [], []⟩

/-- Stages of `POST` after the crawl: build the prompt, call the model,
read and parse its reply, and shape the final result.  Every failure is
the error string the endpoint returns for it. -/
def postCrawl (llm : String → LlmOutcome) (episodeTitle episodeText url : String)
    (sourcePages : List SourcePage) (uniqueImages : List ImageCandidate) :
    Except String AnalysisResult :=
  let prompt := buildPrompt episodeTitle episodeText sourcePages uniqueImages
  match llm prompt with
  | .failure => .error "Server error"
  | .resp ok body =>
    if ! ok then .error ("Claude API error: " ++ body)
    else
      match Json.parse body with
      | none => .error "Server error"
      | some data =>
        match llmRespText data with
        | none => .error "Server error"
        | some (.str responseText) =>
          match stripAndParse responseText with
          | none => .error "Failed to parse Claude response"
          | some llmResult =>
            match shapeResult llmResult uniqueImages episodeTitle url with
            | none => .error "Server error"
            | some r => .ok r
        | some _ => .error "Failed to parse Claude response"

/-- Result of one request: the source links actually fetched by the crawl
loop, and either an error string or the analysis result. -/
structure RunOutput where
  sourceFetches : List String
  outcome : Except String AnalysisResult

/-- The whole `POST` handler of the JSON endpoint as a function of the two
oracles, the configured API key, and the request URL. -/
def runPost (oracle : String → FetchOutcome) (llm : String → LlmOutcome)
    (apiKey : Option String) (url : String) : RunOutput :=
  if url = "" then ⟨[], .error "No URL provided"⟩
  else
    match apiKey with
    | none => ⟨[], .error "ANTHROPIC_API_KEY not configured"⟩
    | some _ =>
      match oracle url with
      | .failure => ⟨[], .error "Server error"⟩
      | .resp status _ body =>
        if ! respOk status then
          ⟨[], .error ("Failed to fetch episode: HTTP " ++ toString status)⟩
        else
          let episodeTitle := extractTitle body
          let episodeText := extractTextContent body
          let sourceLinks := extractLinks body url
          let seedImages := extractImages body url episodeTitle
          let crawl := crawlSources oracle (sourceLinks.take maxSources)
          let uniqueImages := dedupImages (seedImages ++ crawl.images)
          ⟨crawl.fetched, postCrawl llm episodeTitle episodeText url crawl.pages uniqueImages⟩

/-! ## The streaming endpoint's differing constants

The streaming endpoint (`src/app/api/analyze/route.ts`) shares the pipeline
shape but caps source links at 12 and filters images by both stated width
and stated height. -/

/-- The streaming endpoint's source-link cap. -/
def routeMaxSources : Nat := 12

/-- The streaming endpoint's link capping,
`Array.from(sourceLinks).slice(0, CONFIG.maxSources)` over the collected
set. -/
def routeCapLinks (links : List String) : List String :=
  (jsSetDedup links).take routeMaxSources

/-- The streaming endpoint's icon filter over the `width`/`height`
attributes: `parseInt(attr || '0')`, skip when either parsed dimension is
positive and under 100 (`NaN` comparisons are false). -/
def routeSkipsTiny (widthAttr heightAttr : Option String) : Bool :=
  let dim : Option String → Option Int := fun a => jsParseInt (a.getD "0")
  let small : Option Int → Bool := fun v =>
    match v with
    | some x => 0 < x ∧ x < 100
    | none => false
  small (dim widthAttr) ∨ small (dim heightAttr)

/-! ## Claim-side predicates and decompositions -/

/-- Claim C1's acceptance condition as the specification states it: the
URL's path (the URL with any query string and fragment removed) ends with
one of the raster extensions, case-insensitively. -/
def pathEndsWithRasterExt (url : String) : Bool :=
  let noQuery := (jsSplit url "?").getD 0 url
  let noFrag := (jsSplit noQuery "#").getD 0 noQuery
  imageExtensions.any fun ext => ext.data.isSuffixOf (jsToLower noFrag).data

/-- Claim C2's notion of a URL's domain: the host part of an absolute
http(s) URL. -/
def urlDomain (s : String) : Option String :=
  (parseHttpUrl s).map fun u => u.host

/-- A URL string that begins with `http://` or `https://`. -/
def startsWithHttp (s : String) : Bool :=
  "http://".data.isPrefixOf s.data || "https://".data.isPrefixOf s.data

/-- Claim C8's reading of a stated `height` attribute, mirroring the width
pattern `height=["']?(\d+)` of the claim's wording. -/
def tryHeightAt (s : List Char) : Option (List Char) :=
  if ciIsPrefix "height=".data s then
    let r := s.drop 7
    let r2 :=
      match r with
      | q :: rest => if isQuote q then rest else r
      | [] => r
    let ds := r2.takeWhile Char.isDigit
    if ds = [] then none else some ds
  else none

/-- Leftmost stated `height` of a tag, for claim C8. -/
def heightMatch (tagText : List Char) : Option (List Char) :=
  (List.range (tagText.length + 1)).findSome? fun i => tryHeightAt (tagText.drop i)

/-- Claim C3's wrapping of a response text in a `` ```json `` fence. -/
def wrapJsonFence (t : String) : String :=
  "```json\n" ++ t ++ "\n```"

/-- Claim C3's wrapping of a response text in a plain `` ``` `` fence. -/
def wrapTicksFence (t : String) : String :=
  "```\n" ++ t ++ "\n```"

/-- A seed fetch outcome the endpoint treats as fatal: a thrown fetch or a
non-2xx status. -/
def badSeed : FetchOutcome → Prop
  | .failure => True
  | .resp status _ _ => respOk status = false

/-- A source fetch outcome the crawl loop skips: a thrown fetch, a non-2xx
status, or a content-type that is not HTML. -/
def badSource : FetchOutcome → Prop
  | .failure => True
  | .resp status ct _ =>
    respOk status = false ∨ jsIncludes (ct.getD "") "text/html" = false

/-- The source pages contributed by one crawled link. -/
def pageDelta (oracle : String → FetchOutcome) (u : String) : List SourcePage :=
  match oracle u with
  | .failure => []
  | .resp status ct body =>
    if ! respOk status then []
    else if ! jsIncludes (ct.getD "") "text/html" then []
    else [⟨u, extractTitle body, jsSlice (extractTextContent body) 4000⟩]

/-- The image candidates contributed by one crawled link. -/
def imgDelta (oracle : String → FetchOutcome) (u : String) : List ImageCandidate :=
  match oracle u with
  | .failure => []
  | .resp status ct body =>
    if ! respOk status then []
    else if ! jsIncludes (ct.getD "") "text/html" then []
    else extractImages body u (extractTitle body)

/-! ## Properties of deduplication (claim C5) -/

theorem dedupAux_url_not_seen {l : List ImageCandidate} {seen : List String}
    {img : ImageCandidate} (h : img ∈ dedupImagesAux l seen) : img.url ∉ seen := by
  induction l generalizing seen with
  | nil => simp [dedupImagesAux] at h
  | cons a rest ih =>
    simp only [dedupImagesAux] at h
    by_cases ha : a.url ∈ seen
    · rw [if_pos ha] at h
      exact ih h
    · rw [if_neg ha] at h
      rcases List.mem_cons.mp h with he | hm
      · subst he; exact ha
      · intro hc
        exact ih hm (List.mem_cons_of_mem _ hc)

theorem dedupAux_mem {l : List ImageCandidate} {seen : List String}
    {img : ImageCandidate} (h : img ∈ dedupImagesAux l seen) : img ∈ l := by
  induction l generalizing seen with
  | nil => simp [dedupImagesAux] at h
  | cons a rest ih =>
    simp only [dedupImagesAux] at h
    by_cases ha : a.url ∈ seen
    · rw [if_pos ha] at h
      exact List.mem_cons_of_mem _ (ih h)
    · rw [if_neg ha] at h
      rcases List.mem_cons.mp h with he | hm
      · subst he; exact List.mem_cons_self _ _
      · exact List.mem_cons_of_mem _ (ih hm)

theorem dedupAux_nodup (l : List ImageCandidate) (seen : List String) :
    ((dedupImagesAux l seen).map (fun c => c.url)).Nodup := by
  induction l generalizing seen with
  | nil => simp [dedupImagesAux]
  | cons a rest ih =>
    simp only [dedupImagesAux]
    by_cases ha : a.url ∈ seen
    · rw [if_pos ha]; exact ih seen
    · rw [if_neg ha]
      refine List.nodup_cons.mpr ⟨?_, ih (a.url :: seen)⟩
      intro hmem
      rcases List.mem_map.mp hmem with ⟨x, hx, hxu⟩
      have := dedupAux_url_not_seen hx
      exact this (by rw [hxu]; exact List.mem_cons_self _ _)

theorem dedupAux_sublist (l : List ImageCandidate) (seen : List String) :
    List.Sublist (dedupImagesAux l seen) l := by
  induction l generalizing seen with
  | nil => simp [dedupImagesAux]
  | cons a rest ih =>
    simp only [dedupImagesAux]
    by_cases ha : a.url ∈ seen
    · rw [if_pos ha]
      exact List.Sublist.cons _ (ih seen)
    · rw [if_neg ha]
      exact List.Sublist.cons₂ _ (ih (a.url :: seen))

theorem dedupAux_find_first {l : List ImageCandidate} {seen : List String}
    {img : ImageCandidate} (h : img ∈ dedupImagesAux l seen) :
    List.find? (fun x => x.url == img.url) l = some img := by
  induction l generalizing seen with
  | nil => simp [dedupImagesAux] at h
  | cons a rest ih =>
    simp only [dedupImagesAux] at h
    by_cases ha : a.url ∈ seen
    · rw [if_pos ha] at h
      have hne : ¬ (a.url == img.url) = true := by
        intro hc
        exact dedupAux_url_not_seen h (by rw [← beq_iff_eq.mp hc]; exact ha)
      simp only [List.find?, hne]
      simp only [Bool.false_eq_true, if_false] at *
      exact ih h

    · rw [if_neg ha] at h
      rcases List.mem_cons.mp h with he | hm
      · subst he
        simp [List.find?]
      · have hne : ¬ (a.url == img.url) = true := by
          intro hc
          exact dedupAux_url_not_seen hm
            (by rw [← beq_iff_eq.mp hc]; exact List.mem_cons_self _ _)
        simp only [List.find?, hne]
        simp only [Bool.false_eq_true, if_false] at *
        exact ih hm

theorem dedupAux_covers {l : List ImageCandidate} (seen : List String)
    {img : ImageCandidate} (h : img ∈ l) :
    img.url ∈ seen ∨ ∃ img2, img2 ∈ dedupImagesAux l seen ∧ img2.url = img.url := by
  induction l generalizing seen with
  | nil => simp at h
  | cons a rest ih =>
    simp only [dedupImagesAux]
    by_cases ha : a.url ∈ seen
    · rw [if_pos ha]
      rcases List.mem_cons.mp h with he | hm
      · subst he; exact Or.inl ha
      · exact ih seen hm
    · rw [if_neg ha]
      rcases List.mem_cons.mp h with he | hm
      · subst he
        exact Or.inr ⟨img, List.mem_cons_self _ _, rfl⟩
      · rcases ih (a.url :: seen) hm with hs | ⟨img2, h2, hu⟩
        · rcases List.mem_cons.mp hs with he | hs2
          · exact Or.inr ⟨a, List.mem_cons_self _ _, he.symm⟩
          · exact Or.inl hs2
        · exact Or.inr ⟨img2, List.mem_cons_of_mem _ h2, hu⟩

theorem dedupAux_fixed {l : List ImageCandidate} {seen : List String}
    (hn : (l.map (fun c => c.url)).Nodup) (hs : ∀ x ∈ l, x.url ∉ seen) :
    dedupImagesAux l seen = l := by
  induction l generalizing seen with
  | nil => simp [dedupImagesAux]
  | cons a rest ih =>
    simp only [dedupImagesAux]
    rw [if_neg (hs a (List.mem_cons_self _ _))]
    congr 1
    refine ih (List.nodup_cons.mp (by simpa using hn)).2 ?_
    intro x hx hmem
    rcases List.mem_cons.mp hmem with he | hm
    · have : a.url ∈ rest.map (fun c => c.url) := List.mem_map.mpr ⟨x, hx, he⟩
      exact (List.nodup_cons.mp (by simpa using hn)).1 this
    · exact hs x (List.mem_cons_of_mem _ hx) hm

/-- Claim C5: deduplication keeps the first occurrence of each unique URL
in discovery order and drops later duplicates; every URL in its output is
unique, and applying it to its own output returns the same list. -/
theorem claim_C5 (l : List ImageCandidate) :
    ((dedupImages l).map (fun c => c.url)).Nodup ∧
    dedupImages (dedupImages l) = dedupImages l ∧
    List.Sublist (dedupImages l) l ∧
    (∀ img, img ∈ dedupImages l → List.find? (fun x => x.url == img.url) l = some img) ∧
    (∀ img, img ∈ l → ∃ img2, img2 ∈ dedupImages l ∧ img2.url = img.url) := by
  refine ⟨dedupAux_nodup l [], ?_, dedupAux_sublist l [], ?_, ?_⟩
  · exact dedupAux_fixed (dedupAux_nodup l []) (by intro x _ hc; simp at hc)
  · intro img h
    exact dedupAux_find_first h
  · intro img h
    rcases dedupAux_covers [] h with hs | hx
    · simp at hs
    · exact hx

/-- Witness for C5 at a concrete list with a duplicate URL. -/
theorem claim_C5_witness :
    dedupImages [(⟨"u", "a", "", "", "p", "t"⟩ : ImageCandidate), ⟨"v", "b", "", "", "p", "t"⟩,
        ⟨"u", "c", "", "", "q", "s"⟩] =
      [⟨"u", "a", "", "", "p", "t"⟩, ⟨"v", "b", "", "", "p", "t"⟩] ∧
    List.find?
        (fun x => x.url == (⟨"u", "a", "", "", "p", "t"⟩ : ImageCandidate).url)
        [(⟨"u", "a", "", "", "p", "t"⟩ : ImageCandidate), ⟨"v", "b", "", "", "p", "t"⟩,
          ⟨"u", "c", "", "", "q", "s"⟩] =
      some ⟨"u", "a", "", "", "p", "t"⟩ := by
  refine ⟨by decide, ?_⟩
  exact (claim_C5 [⟨"u", "a", "", "", "p", "t"⟩, ⟨"v", "b", "", "", "p", "t"⟩,
    ⟨"u", "c", "", "", "q", "s"⟩]).2.2.2.1 ⟨"u", "a", "", "", "p", "t"⟩ (by decide)

/-! ## Crawl loop properties (claims C6, C7, C9) -/

theorem crawlStep_delta (oracle : String → FetchOutcome) (r : CrawlResult) (u : String) :
    crawlStep oracle r u =
      ⟨r.pages ++ pageDelta oracle u, r.images ++ imgDelta oracle u, r.fetched ++ [u]⟩ := by
  unfold crawlStep pageDelta imgDelta
  cases h : oracle u with
  | failure => simp
  | resp status ct body =>
    by_cases hok : respOk status
    · by_cases hct : jsIncludes (ct.getD "") "text/html"
      · simp [hok, hct]
      · simp [hok, hct]
    · simp [hok]

theorem crawl_foldl_eq (oracle : String → FetchOutcome) (links : List String) (r : CrawlResult) :
    links.foldl (crawlStep oracle) r =
      ⟨r.pages ++ links.flatMap (pageDelta oracle),
       r.images ++ links.flatMap (imgDelta oracle),
       r.fetched ++ links⟩ := by
  induction links generalizing r with
  | nil => simp
  | cons l rest ih =>
    rw [List.foldl_cons, crawlStep_delta, ih]
    simp

theorem crawlSources_eq (oracle : String → FetchOutcome) (links : List String) :
    crawlSources oracle links =
      ⟨links.flatMap (pageDelta oracle), links.flatMap (imgDelta oracle), links⟩ := by
  unfold crawlSources
  rw [crawl_foldl_eq]
  simp

theorem badSource_pageDelta {oracle : String → FetchOutcome} {u : String}
    (h : badSource (oracle u)) : pageDelta oracle u = [] := by
  unfold pageDelta
  unfold badSource at h
  cases ho : oracle u with
  | failure => rfl
  | resp status ct body =>
    rw [ho] at h
    rcases h with h1 | h1
    · simp [h1]
    · simp [h1]

theorem badSource_imgDelta {oracle : String → FetchOutcome} {u : String}
    (h : badSource (oracle u)) : imgDelta oracle u = [] := by
  unfold imgDelta
  unfold badSource at h
  cases ho : oracle u with
  | failure => rfl
  | resp status ct body =>
    rw [ho] at h
    rcases h with h1 | h1
    · simp [h1]
    · simp [h1]

/-- Claim C7: a source link whose fetch throws, returns a non-2xx status,
or returns a non-HTML content type contributes no source page and no image
candidate, and the loop continues over the remaining links. -/
theorem claim_C7 (oracle : String → FetchOutcome) (pre post : List String) (l : String)
    (h : badSource (oracle l)) :
    (crawlSources oracle (pre ++ l :: post)).pages = (crawlSources oracle (pre ++ post)).pages ∧
    (crawlSources oracle (pre ++ l :: post)).images = (crawlSources oracle (pre ++ post)).images ∧
    (crawlSources oracle (pre ++ l :: post)).fetched = pre ++ l :: post := by
  rw [crawlSources_eq, crawlSources_eq]
  refine ⟨?_, ?_, rfl⟩
  · simp [List.flatMap_append, badSource_pageDelta h]
  · simp [List.flatMap_append, badSource_imgDelta h]

/-- Witness for C7: a 404 source contributes nothing while the crawl
continues past it. -/
theorem claim_C7_witness :
    (crawlSources (fun _ => FetchOutcome.resp 404 (some "text/html") "x")
        (["https://a.org/p"] ++ "https://b.org/q" :: ["https://c.org/r"])).pages = [] ∧
    (crawlSources (fun _ => FetchOutcome.resp 404 (some "text/html") "x")
        (["https://a.org/p"] ++ "https://b.org/q" :: ["https://c.org/r"])).fetched =
      ["https://a.org/p", "https://b.org/q", "https://c.org/r"] := by
  have h := claim_C7 (fun _ => FetchOutcome.resp 404 (some "text/html") "x")
    ["https://a.org/p"] ["https://c.org/r"] "https://b.org/q" (Or.inl (by decide))
  refine ⟨?_, h.2.2⟩
  rw [h.1]
  decide

/-- Claim C6: when the seed fetch fails or returns a non-2xx status, the
endpoint returns an error result and the crawl loop never fetches any
source link. -/
theorem claim_C6 (oracle : String → FetchOutcome) (llm : String → LlmOutcome)
    (apiKey : Option String) (url : String) (h : badSeed (oracle url)) :
    (runPost oracle llm apiKey url).sourceFetches = [] ∧
    ∃ e, (runPost oracle llm apiKey url).outcome = Except.error e := by
  unfold runPost
  by_cases hu : url = ""
  · simp [hu]
  · rw [if_neg hu]
    cases apiKey with
    | none => exact ⟨rfl, _, rfl⟩
    | some k =>
      unfold badSeed at h
      cases ho : oracle url with
      | failure => exact ⟨rfl, _, rfl⟩
      | resp status ct body =>
        rw [ho] at h
        simp only [h]
        exact ⟨rfl, _, rfl⟩

/-- Witness for C6: an HTTP 404 seed yields an error and an empty source
fetch list. -/
theorem claim_C6_witness :
    (runPost (fun _ => FetchOutcome.resp 404 none "nope") (fun _ => LlmOutcome.failure)
        (some "key") "https://casefilepodcast.com/ep1").sourceFetches = [] ∧
    ∃ e, (runPost (fun _ => FetchOutcome.resp 404 none "nope") (fun _ => LlmOutcome.failure)
        (some "key") "https://casefilepodcast.com/ep1").outcome = Except.error e :=
  claim_C6 (fun _ => FetchOutcome.resp 404 none "nope") (fun _ => LlmOutcome.failure)
    (some "key") "https://casefilepodcast.com/ep1" (show respOk 404 = false by decide)

/-- Claim C9: the crawl loop of the JSON endpoint fetches at most 10 source
links, and the streaming endpoint's link capping keeps at most 12. -/
theorem claim_C9 (oracle : String → FetchOutcome) (llm : String → LlmOutcome)
    (apiKey : Option String) (url : String) :
    (runPost oracle llm apiKey url).sourceFetches.length ≤ maxSources ∧
    ∀ links : List String, (routeCapLinks links).length ≤ routeMaxSources := by
  constructor
  · unfold runPost
    by_cases hu : url = ""
    · simp [hu]
    · rw [if_neg hu]
      cases apiKey with
      | none => simp
      | some k =>
        cases ho : oracle url with
        | failure => simp
        | resp status ct body =>
          by_cases hok : respOk status
          · simp only [hok, Bool.not_true, Bool.false_eq_true, if_false]
            rw [crawlSources_eq]
            exact le_trans (List.length_take_le _ _) (le_refl _)
          · simp [hok]
  · intro links
    unfold routeCapLinks
    exact le_trans (List.length_take_le _ _) (le_refl _)

/-! ## Extraction output invariants (claims C1, C2) -/

theorem jsSetDedupAux_mem {l seen : List String} {x : String}
    (h : x ∈ jsSetDedupAux l seen) : x ∈ l := by
  induction l generalizing seen with
  | nil => simp [jsSetDedupAux] at h
  | cons a rest ih =>
    simp only [jsSetDedupAux] at h
    by_cases ha : a ∈ seen
    · rw [if_pos ha] at h
      exact List.mem_cons_of_mem _ (ih h)
    · rw [if_neg ha] at h
      rcases List.mem_cons.mp h with he | hm
      · subst he; exact List.mem_cons_self _ _
      · exact List.mem_cons_of_mem _ (ih hm)

theorem normalizeUrl_http {url base h : String}
    (hn : normalizeUrl url base = some h) : startsWithHttp h = true := by
  unfold normalizeUrl at hn
  cases hr : resolveUrl url base with
  | none => rw [hr] at hn; cases hn
  | some u =>
    rw [hr] at hn
    change (if u.scheme = "http" ∨ u.scheme = "https" then some (urlHref u) else none) = some h at hn
    by_cases hs : u.scheme = "http" ∨ u.scheme = "https"
    · rw [if_pos hs] at hn
      have he : urlHref u = h := Option.some.inj hn
      unfold urlHref at he
      unfold startsWithHttp
      rcases hs with h1 | h1
      · have hd : h.data = "http".data ++ ("://".data ++ (u.host.data ++ (u.path.data ++ u.query.data))) := by
          rw [← he, h1]
          simp [String.data_append, List.append_assoc]
        rw [hd]
        rw [Bool.or_eq_true]
        left
        rw [ List.isPrefixOf_iff_prefix]
        rw [show "http://".data = "http".data ++ "://".data from rfl, ← List.append_assoc]
        exact List.prefix_append _ _
      · have hd : h.data = "https".data ++ ("://".data ++ (u.host.data ++ (u.path.data ++ u.query.data))) := by
          rw [← he, h1]
          simp [String.data_append, List.append_assoc]
        rw [hd]
        rw [Bool.or_eq_true]
        right
        rw [ List.isPrefixOf_iff_prefix]
        rw [show "https://".data = "https".data ++ "://".data from rfl, ← List.append_assoc]
        exact List.prefix_append _ _
    · rw [if_neg hs] at hn; cases hn

theorem processImgTag_url {pu pt : String} {m : List Char × List Char} {c : ImageCandidate}
    (h : processImgTag pu pt m = some c) :
    normalizeUrl (String.mk m.2) pu = some c.url ∧ isImageUrl c.url = true := by
  unfold processImgTag at h
  split at h
  · cases h
  · rename_i u hn
    split at h
    · cases h
    · rename_i hi
      dsimp only at h
      split at h
      · cases h
      · have hc := Option.some.inj h
        constructor
        · rw [← hc]
          exact hn
        · rw [← hc]
          simpa using hi

theorem collectImages_mem {pu pt : String} {ms : List (List Char × List Char)}
    {acc : List ImageCandidate} {c : ImageCandidate}
    (h : c ∈ collectImages pu pt ms acc) :
    c ∈ acc ∨ ∃ m, m ∈ ms ∧ processImgTag pu pt m = some c := by
  induction ms generalizing acc with
  | nil =>
    simp only [collectImages] at h
    exact Or.inl (List.mem_reverse.mp h)
  | cons m ms ih =>
    simp only [collectImages] at h
    by_cases hcap : maxImagesPerPage ≤ acc.length
    · rw [if_pos hcap] at h
      exact Or.inl (List.mem_reverse.mp h)
    · rw [if_neg hcap] at h
      cases hp : processImgTag pu pt m with
      | some c2 =>
        rw [hp] at h
        rcases ih h with hacc | ⟨m2, hm2, hp2⟩
        · rcases List.mem_cons.mp hacc with he | hacc2
          · subst he
            exact Or.inr ⟨m, List.mem_cons_self _ _, hp⟩
          · exact Or.inl hacc2
        · exact Or.inr ⟨m2, List.mem_cons_of_mem _ hm2, hp2⟩
      | none =>
        rw [hp] at h
        rcases ih h with hacc | ⟨m2, hm2, hp2⟩
        · exact Or.inl hacc
        · exact Or.inr ⟨m2, List.mem_cons_of_mem _ hm2, hp2⟩

theorem extractImages_url {html pu pt : String} {c : ImageCandidate}
    (h : c ∈ extractImages html pu pt) :
    (∃ u0, normalizeUrl u0 pu = some c.url) ∧ isImageUrl c.url = true := by
  unfold extractImages at h
  have hbase : ∀ c2 : ImageCandidate,
      c2 ∈ collectImages pu pt (imgTagMatches html) [] →
      (∃ u0, normalizeUrl u0 pu = some c2.url) ∧ isImageUrl c2.url = true := by
    intro c2 h2
    rcases collectImages_mem h2 with hacc | ⟨m, _, hp⟩
    · simp at hacc
    · have := processImgTag_url hp
      exact ⟨⟨String.mk m.2, this.1⟩, this.2⟩
  dsimp only at h
  split at h
  · exact hbase c h
  · rename_i og hog
    split at h
    · split at h
      · rename_i u hn
        split at h
        · rename_i hi
          rcases List.mem_append.mp h with hm | hm
          · exact hbase c hm
          · have he : c = ⟨u, pt, "", "", pu, pt⟩ := by simpa using hm
            subst he
            exact ⟨⟨String.mk og, hn⟩, hi⟩
        · exact hbase c h
      · exact hbase c h
    · exact hbase c h

/-- Claim C1 (amended): every image candidate URL produced by page
extraction is an absolute http/https URL accepted by the code's substring
extension check `isImageUrl`. -/
theorem claim_C1 (html pageUrl pageTitle : String) (c : ImageCandidate)
    (h : c ∈ extractImages html pageUrl pageTitle) :
    startsWithHttp c.url = true ∧ isImageUrl c.url = true := by
  have hu := extractImages_url h
  rcases hu.1 with ⟨u0, hn⟩
  exact ⟨normalizeUrl_http hn, hu.2⟩

/-- Witness for C1 at a concrete page. -/
theorem claim_C1_witness :
    startsWithHttp "https://example.com/a.jpg" = true ∧
      isImageUrl "https://example.com/a.jpg" = true :=
  claim_C1 "<img src=\"https://example.com/a.jpg\">" "https://example.com/" "T"
    ⟨"https://example.com/a.jpg", "", "", "", "https://example.com/", "T"⟩ (by decide)

/-- Counterexample to C1 as stated: the extraction accepts a URL whose path
does not end in a raster extension, because `isImageUrl` only checks for
the extension as a substring. -/
theorem claim_C1_counterexample :
    ∃ c : ImageCandidate,
      c ∈ extractImages "<img src=\"https://example.com/photo.jpg.html\">"
          "https://example.com/page" "T" ∧
      pathEndsWithRasterExt c.url = false := by
  refine ⟨⟨"https://example.com/photo.jpg.html", "", "", "", "https://example.com/page", "T"⟩,
    by decide, by decide⟩

/-- Claim C2 (amended): every extracted source link is an absolute
http/https URL that does not contain the hardcoded seed-site literal
`casefilepodcast.com`; the filter compares against that literal, not
against the supplied seed URL's domain. -/
theorem claim_C2 (html baseUrl : String) (l : String)
    (h : l ∈ extractLinks html baseUrl) :
    jsIncludes l "casefilepodcast.com" = false ∧ startsWithHttp l = true := by
  unfold extractLinks at h
  dsimp only at h
  have hdedup := jsSetDedupAux_mem (List.mem_of_mem_take h)
  rcases List.mem_filterMap.mp hdedup with ⟨m, _, hf⟩
  split at hf
  · rename_i n hn
    split at hf
    · cases hf
    · rename_i hc
      have he : n = l := Option.some.inj hf
      subst he
      exact ⟨by simpa using hc, normalizeUrl_http hn⟩
  · cases hf

/-- Witness for C2 at a concrete page. -/
theorem claim_C2_witness :
    jsIncludes "https://example.com/other" "casefilepodcast.com" = false ∧
      startsWithHttp "https://example.com/other" = true :=
  claim_C2 "<a href=\"https://example.com/other\">x</a>" "https://example.com/"
    "https://example.com/other" (by decide)

/-- Counterexample to C2 as stated: a seed on any domain other than the
hardcoded literal keeps links to its own domain, so the seed's domain does
appear among the source links. -/
theorem claim_C2_counterexample :
    ∃ l, l ∈ extractLinks "<a href=\"https://example.com/other\">x</a>" "https://example.com/" ∧
      urlDomain l = urlDomain "https://example.com/" ∧ urlDomain l = some "example.com" := by
  exact ⟨"https://example.com/other", by decide, by decide, by decide⟩

/-! ## The icon filters (claim C8) -/

theorem processImgTag_width_small {pu pt : String} {m : List Char × List Char} {ds : List Char}
    (hw : widthMatch m.1 = some ds) (hlt : natOfDigits ds < 100) :
    processImgTag pu pt m = none := by
  unfold processImgTag
  split
  · rfl
  · rename_i u _
    by_cases hi : isImageUrl u
    · rw [if_neg (by simp [hi])]
      dsimp only
      simp only [hw]
      rw [if_pos hlt]
    · rw [if_pos (by simp [hi])]

/-- Claim C8 (amended): on the JSON endpoint a stated width under 100
excludes the image (stated height alone is not checked there); on the
streaming endpoint a stated width or height parsed to a value in (0, 100)
triggers the skip; the 150/50 fixture keeps only the 150 image. -/
theorem claim_C8 :
    (∀ (pu pt : String) (m : List Char × List Char) (ds : List Char),
        widthMatch m.1 = some ds → natOfDigits ds < 100 → processImgTag pu pt m = none) ∧
    extractImages
        "<img src=\"https://e.co/big.jpg\" width=\"150\" height=\"150\"><img src=\"https://e.co/small.jpg\" width=\"50\" height=\"50\">"
        "https://e.co/" "T" =
      [⟨"https://e.co/big.jpg", "", "", "", "https://e.co/", "T"⟩] ∧
    (∀ (w : Option String) (hs : String) (x : Int),
        jsParseInt hs = some x → 0 < x → x < 100 → routeSkipsTiny w (some hs) = true) ∧
    (∀ (h : Option String) (ws : String) (x : Int),
        jsParseInt ws = some x → 0 < x → x < 100 → routeSkipsTiny (some ws) h = true) := by
  refine ⟨?_, by decide, ?_, ?_⟩
  · intro pu pt m ds hw hlt
    exact processImgTag_width_small hw hlt
  · intro w hs x hp h0 h1
    simp [routeSkipsTiny, hp, h0, h1]
  · intro h ws x hp h0 h1
    simp [routeSkipsTiny, hp, h0, h1]

/-- Witness for C8's universally quantified parts at concrete attributes. -/
theorem claim_C8_witness :
    processImgTag "https://e.co/" "T"
        ("<img src=\"https://e.co/small.jpg\" width=\"50\">".data, "https://e.co/small.jpg".data) =
      none ∧
    routeSkipsTiny none (some "50") = true ∧
    routeSkipsTiny (some "50") none = true := by
  refine ⟨?_, ?_, ?_⟩
  · exact (claim_C8.1 "https://e.co/" "T" _ ['5', '0'] (by decide) (by decide))
  · exact claim_C8.2.2.1 none "50" 50 (by decide) (by decide) (by decide)
  · exact claim_C8.2.2.2 none "50" 50 (by decide) (by decide) (by decide)

/-- Counterexample to C8 as stated: on the JSON endpoint an image whose
only small stated dimension is its height (here 50) is still extracted,
because that endpoint never reads the height attribute. -/
theorem claim_C8_counterexample :
    heightMatch "<img src=\"https://e.co/a.jpg\" width=\"150\" height=\"50\">".data =
      some ['5', '0'] ∧
    natOfDigits ['5', '0'] < 100 ∧
    extractImages "<img src=\"https://e.co/a.jpg\" width=\"150\" height=\"50\">"
        "https://e.co/p" "T" =
      [⟨"https://e.co/a.jpg", "", "", "", "https://e.co/p", "T"⟩] := by
  exact ⟨by decide, by decide, by decide⟩

/-! ## Response shaping properties (claims C4, C10) -/

theorem seqMap_forall2 {f : α → Option β} {xs : List α} {ys : List β}
    (h : seqMap f xs = some ys) : List.Forall₂ (fun x y => f x = some y) xs ys := by
  induction xs generalizing ys with
  | nil =>
    simp only [seqMap] at h
    rw [← Option.some.inj h]
    exact List.Forall₂.nil
  | cons x xs ih =>
    simp only [seqMap] at h
    cases hf : f x with
    | none => rw [hf] at h; cases h
    | some y =>
      rw [hf] at h
      cases hs : seqMap f xs with
      | none => rw [hs] at h; cases h
      | some ys2 =>
        rw [hs] at h
        rw [← Option.some.inj h]
        exact List.Forall₂.cons hf (ih hs)

theorem seqMap_isSome {f : α → Option β} {xs : List α}
    (h : ∀ x ∈ xs, (f x).isSome = true) : (seqMap f xs).isSome = true := by
  induction xs with
  | nil => simp [seqMap]
  | cons x xs ih =>
    simp only [seqMap]
    cases hf : f x with
    | none =>
      have := h x (List.mem_cons_self _ _)
      rw [hf] at this
      cases this
    | some y =>
      cases hs : seqMap f xs with
      | none =>
        have := ih fun a ha => h a (List.mem_cons_of_mem _ ha)
        rw [hs] at this
        cases this
      | some ys => simp

theorem forall2_mem_right {R : α → β → Prop} {xs : List α} {ys : List β}
    (h : List.Forall₂ R xs ys) {x : α} (hx : x ∈ xs) : ∃ y ∈ ys, R x y := by
  induction h with
  | nil => cases hx
  | cons hr _ ih =>
    rcases List.mem_cons.mp hx with he | hm
    · subst he
      exact ⟨_, List.mem_cons_self _ _, hr⟩
    · rcases ih hm with ⟨y, hy, hry⟩
      exact ⟨y, List.mem_cons_of_mem _ hy, hry⟩

theorem filterMap_id_le (ys : List (Option β)) :
    (ys.filterMap id).length ≤ ys.length := by
  induction ys with
  | nil => simp
  | cons y ys ih =>
    cases y with
    | none =>
      simp only [List.filterMap_cons, id, List.length_cons]
      omega
    | some b =>
      simp only [List.filterMap_cons, id, List.length_cons]
      omega

theorem filterMap_id_lt_of_none {ys : List (Option β)} (h : none ∈ ys) :
    (ys.filterMap id).length < ys.length := by
  induction ys with
  | nil => cases h
  | cons y ys ih =>
    rcases List.mem_cons.mp h with he | hm
    · rw [← he]
      simp only [List.filterMap_cons, id, List.length_cons]
      have := filterMap_id_le ys
      omega
    · cases y with
      | none =>
        simp only [List.filterMap_cons, id, List.length_cons]
        have := filterMap_id_le ys
        omega
      | some b =>
        simp only [List.filterMap_cons, id, List.length_cons]
        have := ih hm
        omega

theorem shapeImageRef_oor {imgs : List ImageCandidate} {ref : Json} {n : Int}
    (hidx : jaccess ref "image_index" = some (some (Json.num n)))
    (hout : n < 0 ∨ imgs.length ≤ n.toNat) :
    shapeImageRef imgs ref = some none := by
  unfold shapeImageRef
  rw [hidx]
  dsimp only
  rcases hout with hneg | hlen
  · rw [if_pos hneg]
  · by_cases hneg : n < 0
    · rw [if_pos hneg]
    · rw [if_neg hneg, List.getElem?_eq_none hlen]

/-- Claim C4: an out-of-range `image_index` resolves to a dropped entry
rather than an error: the reference shapes to `null` (then filtered out),
the carrying entity keeps fewer images than it has references, and the
whole response still shapes successfully with every entity of the model
result present in order. -/
theorem claim_C4 (imgs : List ImageCandidate) (es : List Json) (e : Json)
    (refs : List Json) (ref : Json) (n : Int) (summary : Json) (et eu : String)
    (hwf : ∀ e2 ∈ es, (shapeEntity imgs e2).isSome = true)
    (hhost : ∀ img ∈ imgs, (urlHostname img.sourcePageUrl).isSome = true)
    (he : e ∈ es)
    (himgs : jaccess e "images" = some (some (Json.arr refs)))
    (href : ref ∈ refs)
    (hidx : jaccess ref "image_index" = some (some (Json.num n)))
    (hout : n < 0 ∨ imgs.length ≤ n.toNat) :
    shapeImageRef imgs ref = some none ∧
    (∀ se, shapeEntity imgs e = some se → se.images.length < refs.length) ∧
    (∃ r, shapeResult (Json.obj [("summary", summary), ("entities", Json.arr es)]) imgs et eu =
        some r ∧
      List.Forall₂ (fun e2 se => shapeEntity imgs e2 = some se) es r.entities) := by
  have hdrop := shapeImageRef_oor hidx hout
  refine ⟨hdrop, ?_, ?_⟩
  · intro se hse
    unfold shapeEntity at hse
    rw [himgs] at hse
    cases h1 : jaccess e "name" <;> rw [h1] at hse
    · cases hse
    · cases h2 : jaccess e "type" <;> rw [h2] at hse
      · cases hse
      · cases h3 : jaccess e "role" <;> rw [h3] at hse
        · cases hse
        · cases h4 : jaccess e "description" <;> rw [h4] at hse
          · cases hse
          · cases h5 : jaccess e "pronouns" <;> rw [h5] at hse
            · cases hse
            · dsimp only at hse
              rw [show jsOrJson (some (Json.arr refs)) (Json.arr []) = Json.arr refs from rfl]
                at hse
              dsimp only at hse
              cases hs : seqMap (shapeImageRef imgs) refs with
              | none => rw [hs] at hse; cases hse
              | some shaped =>
                rw [hs] at hse
                have hlen : shaped.length = refs.length :=
                  List.Forall₂.length_eq (seqMap_forall2 hs) |>.symm
                have hmem : (none : Option ShapedImage) ∈ shaped := by
                  rcases forall2_mem_right (seqMap_forall2 hs) href with ⟨y, hy, hry⟩
                  have : y = none := by
                    rw [hdrop] at hry
                    exact (Option.some.inj hry).symm
                  rw [← this]
                  exact hy
                have := filterMap_id_lt_of_none hmem
                have hse2 := Option.some.inj hse
                rw [← hse2]
                dsimp only
                omega
  · unfold shapeResult
    have hsum : jaccess (Json.obj [("summary", summary), ("entities", Json.arr es)]) "summary" =
        some (some summary) := rfl
    have hent : jaccess (Json.obj [("summary", summary), ("entities", Json.arr es)]) "entities" =
        some (some (Json.arr es)) := rfl
    rw [hsum, hent]
    dsimp only
    rw [show jsOrJson (some (Json.arr es)) (Json.arr []) = Json.arr es from rfl]
    dsimp only
    have hes := seqMap_isSome hwf
    rcases Option.isSome_iff_exists.mp hes with ⟨entities, hes2⟩
    rw [hes2]
    dsimp only
    have hside : ∀ img ∈ imgs.take allImagesCap, (shapeAllImage img).isSome = true := by
      intro img himg
      have := hhost img (List.mem_of_mem_take himg)
      unfold shapeAllImage
      rcases Option.isSome_iff_exists.mp this with ⟨host, hh⟩
      rw [hh]
      rfl
    have hai := seqMap_isSome hside
    rcases Option.isSome_iff_exists.mp hai with ⟨allImages, hai2⟩
    rw [hai2]
    exact ⟨_, rfl, seqMap_forall2 hes2⟩

/-- Witness for C4: a two-entity response where one image reference has
index 9 against a one-image list. -/
theorem claim_C4_witness :
    shapeImageRef [⟨"https://s.org/a.jpg", "", "", "", "https://s.org/p", "T"⟩]
        (Json.obj [("image_index", Json.num 9)]) = some none ∧
    ∃ r, shapeResult
        (Json.obj [("summary", Json.str "S"),
          ("entities", Json.arr [Json.obj [("name", Json.str "Al"),
            ("images", Json.arr [Json.obj [("image_index", Json.num 9)]])]])])
        [⟨"https://s.org/a.jpg", "", "", "", "https://s.org/p", "T"⟩] "t" "u" = some r ∧
      List.Forall₂
        (fun e2 se => shapeEntity [⟨"https://s.org/a.jpg", "", "", "", "https://s.org/p", "T"⟩] e2 =
          some se)
        [Json.obj [("name", Json.str "Al"),
          ("images", Json.arr [Json.obj [("image_index", Json.num 9)]])]] r.entities := by
  have h := claim_C4 [⟨"https://s.org/a.jpg", "", "", "", "https://s.org/p", "T"⟩]
    [Json.obj [("name", Json.str "Al"),
      ("images", Json.arr [Json.obj [("image_index", Json.num 9)]])]]
    (Json.obj [("name", Json.str "Al"),
      ("images", Json.arr [Json.obj [("image_index", Json.num 9)]])])
    [Json.obj [("image_index", Json.num 9)]]
    (Json.obj [("image_index", Json.num 9)]) 9 (Json.str "S") "t" "u"
    (by intro e2 h2; rw [show e2 = Json.obj [("name", Json.str "Al"),
      ("images", Json.arr [Json.obj [("image_index", Json.num 9)]])] by simpa using h2]; rfl)
    (by intro img h2; rw [show img = (⟨"https://s.org/a.jpg", "", "", "", "https://s.org/p", "T"⟩ :
      ImageCandidate) by simpa using h2]; rfl)
    (List.mem_cons_self _ _) rfl (List.mem_cons_self _ _) rfl (Or.inr (by decide))
  exact ⟨h.1, h.2.2⟩

/-- Claim C10: response shaping is total over missing optional fields: an
absent `entities` yields an empty entity list, an absent `summary` the
empty string, and an absent `images`, `role`, or `pronouns` on an entity
the empty array or empty string, with no error. -/
theorem claim_C10 (imgs : List ImageCandidate) (et eu : String)
    (hhost : ∀ img ∈ imgs, (urlHostname img.sourcePageUrl).isSome = true)
    (n d : String) :
    (∃ r, shapeResult (Json.obj []) imgs et eu = some r ∧
        r.summary = Json.str "" ∧ r.entities = []) ∧
    (∃ se, shapeEntity imgs (Json.obj [("name", Json.str n), ("description", Json.str d)]) =
        some se ∧
      se.role = Json.str "" ∧ se.pronouns = Json.str "" ∧ se.images = []) := by
  constructor
  · unfold shapeResult
    have h1 : jaccess (Json.obj []) "summary" = some none := rfl
    have h2 : jaccess (Json.obj []) "entities" = some none := rfl
    rw [h1, h2]
    dsimp only
    rw [show jsOrJson none (Json.arr []) = Json.arr [] from rfl]
    dsimp only
    rw [show seqMap (shapeEntity imgs) [] = some [] from rfl]
    dsimp only
    have hside : ∀ img ∈ imgs.take allImagesCap, (shapeAllImage img).isSome = true := by
      intro img himg
      have := hhost img (List.mem_of_mem_take himg)
      unfold shapeAllImage
      rcases Option.isSome_iff_exists.mp this with ⟨host, hh⟩
      rw [hh]
      rfl
    have hai := seqMap_isSome hside
    rcases Option.isSome_iff_exists.mp hai with ⟨allImages, hai2⟩
    rw [hai2]
    exact ⟨_, rfl, rfl, rfl⟩
  · exact ⟨⟨some (Json.str n), none, Json.str "", some (Json.str d), Json.str "", []⟩,
      rfl, rfl, rfl, rfl⟩

/-- Witness for C10 at the empty image list. -/
theorem claim_C10_witness :
    ∃ r, shapeResult (Json.obj []) [] "t" "u" = some r ∧
      r.summary = Json.str "" ∧ r.entities = [] :=
  (claim_C10 [] "t" "u" (by intro img h; cases h) "N" "D").1

/-! ## Code-fence stripping (claim C3)

The key computation laws of the split model: a split finds nothing without
an occurrence of the separator, scanning walks past positions where the
separator cannot match, and a separator at the head of the input cuts
immediately. -/

theorem splitAux_no_occ {sep s acc : List Char} (hs : ¬ sep <:+: s) :
    ∀ fuel, splitAux sep fuel s acc = [acc.reverse ++ s] := by
  intro fuel
  induction fuel generalizing s acc with
  | zero => rfl
  | succ fuel ih =>
    have hcond : ¬ (sep ≠ [] ∧ sep.isPrefixOf s) := by
      rintro ⟨-, hpre⟩
      exact hs ( List.isPrefixOf_iff_prefix.mp hpre).isInfix
    rw [splitAux.eq_def]
    dsimp only
    rw [if_neg hcond]
    match s with
    | [] => simp
    | c :: rest =>
      have hs2 : ¬ sep <:+: rest := by
        intro hinf
        rcases hinf with ⟨u, v, huv⟩
        exact hs ⟨c :: u, v, by rw [← huv]; rfl⟩
      dsimp only
      rw [ih hs2]
      simp

theorem splitAux_length_pos (sep : List Char) :
    ∀ (fuel : Nat) (s acc : List Char), 1 ≤ (splitAux sep fuel s acc).length := by
  intro fuel
  induction fuel with
  | zero => intro s acc; simp [splitAux]
  | succ fuel ih =>
    intro s acc
    rw [splitAux.eq_def]
    dsimp only
    by_cases hcond : sep ≠ [] ∧ sep.isPrefixOf s
    · rw [if_pos hcond]
      simp
    · rw [if_neg hcond]
      match s with
      | [] => simp
      | c :: rest => exact ih rest (c :: acc)

theorem splitAux_head_match {sep rest acc : List Char} (hsep : sep ≠ []) (fuel : Nat) :
    splitAux sep (fuel + 1) (sep ++ rest) acc = acc.reverse :: splitAux sep fuel rest [] := by
  rw [splitAux.eq_def]
  dsimp only
  rw [if_pos ⟨hsep, List.isPrefixOf_iff_prefix.mpr (List.prefix_append sep rest)⟩,
    List.drop_left]

theorem splitAux_walk {sep : List Char} (a : List Char) {b : List Char}
    (h : ∀ p, p < a.length → ¬ sep <+: (a ++ b).drop p) :
    ∀ (fuel : Nat) (acc : List Char),
      splitAux sep (a.length + fuel) (a ++ b) acc = splitAux sep fuel b (a.reverse ++ acc) := by
  induction a with
  | nil => intro fuel acc; simp
  | cons c a ih =>
    intro fuel acc
    have hcond : ¬ (sep ≠ [] ∧ sep.isPrefixOf (c :: (a ++ b))) := by
      rintro ⟨-, hpre⟩
      exact h 0 (by simp) (by simpa using List.isPrefixOf_iff_prefix.mp hpre)
    have hlen : (c :: a).length + fuel = (a.length + fuel) + 1 := by
      simp
      omega
    rw [hlen, List.cons_append, splitAux.eq_def]
    dsimp only
    rw [if_neg hcond]
    have h2 : ∀ p, p < a.length → ¬ sep <+: (a ++ b).drop p := by
      intro p hp
      have := h (p + 1) (by simp; omega)
      simpa using this
    rw [ih h2 fuel (c :: acc)]
    simp

theorem splitAux_nil (sep : List Char) (fuel : Nat) :
    splitAux sep fuel [] [] = [[]] := by
  cases fuel with
  | zero => rfl
  | succ fuel =>
    rw [splitAux.eq_def]
    dsimp only
    by_cases hcond : sep ≠ [] ∧ sep.isPrefixOf ([] : List Char)
    · rcases hcond with ⟨hne, hpre⟩
      have := ( List.isPrefixOf_iff_prefix.mp hpre).length_le
      simp at this
      exact absurd this hne
    · rw [if_neg hcond]
      rfl

theorem splitAux_occ_two {sep : List Char} (hsep : sep ≠ []) (a : List Char) :
    ∀ (fuel : Nat) (b acc : List Char), a.length + 1 ≤ fuel →
      2 ≤ (splitAux sep fuel (a ++ sep ++ b) acc).length := by
  induction a with
  | nil =>
    intro fuel b acc hf
    match fuel, hf with
    | fuel + 1, _ =>
      rw [List.nil_append, splitAux_head_match hsep]
      have := splitAux_length_pos sep fuel b []
      simp only [List.length_cons]
      omega
  | cons c a ih =>
    intro fuel b acc hf
    match fuel, hf with
    | fuel + 1, hf =>
      have hre : (c :: a) ++ sep ++ b = c :: (a ++ sep ++ b) := by simp
      rw [hre, splitAux.eq_def]
      dsimp only
      by_cases hcond : sep ≠ [] ∧ sep.isPrefixOf (c :: (a ++ sep ++ b))
      · rw [if_pos hcond]
        have := splitAux_length_pos sep fuel ((c :: (a ++ sep ++ b)).drop sep.length) []
        simp only [List.length_cons]
        omega
      · rw [if_neg hcond]
        exact ih fuel b (c :: acc) (by simp at hf ⊢; omega)

theorem occurs_gives_includes (t sub : String) (hsub : sub.data ≠ [])
    (h : sub.data <:+: t.data) : jsIncludes t sub = true := by
  rcases h with ⟨a, b, hab⟩
  unfold jsIncludes jsSplit
  rw [← hab]
  have h2 := splitAux_occ_two hsub a ((a ++ sub.data ++ b).length + 1) b []
    (by simp)
  rw [decide_eq_true_iff, List.length_map]
  exact h2

theorem no_tb_window {t : String} (h : jsIncludes t "```" = false) :
    ∀ q, ¬ ("```".data <+: t.data.drop q) := by
  intro q hq
  rcases hq with ⟨u, hu⟩
  have hinf : "```".data <:+: t.data :=
    ⟨t.data.take q, u, by rw [List.append_assoc, hu]; exact List.take_append_drop q t.data⟩
  have := occurs_gives_includes t "```" (by decide) hinf
  rw [h] at this
  cases this

theorem prefix_drop_window {l : List Char} {p : Nat} (h : "```".data <+: l.drop p) :
    l[p]? = some '`' ∧ l[p + 1]? = some '`' ∧ l[p + 2]? = some '`' := by
  rcases h with ⟨u, hu⟩
  have key : ∀ i, i < 3 → ("```".data ++ u)[i]? = some '`' := by
    intro i hi
    rw [List.getElem?_append_left (by simp; omega)]
    match i, hi with
    | 0, _ => rfl
    | 1, _ => rfl
    | 2, _ => rfl
  refine ⟨?_, ?_, ?_⟩
  · show l[p + 0]? = some '`'
    rw [← List.getElem?_drop, ← hu]
    exact key 0 (by omega)
  · rw [← List.getElem?_drop, ← hu]
    exact key 1 (by omega)
  · rw [← List.getElem?_drop, ← hu]
    exact key 2 (by omega)

theorem window_prefix {l : List Char} {q : Nat} {c1 c2 c3 : Char}
    (h1 : l[q]? = some c1) (h2 : l[q + 1]? = some c2) (h3 : l[q + 2]? = some c3) :
    [c1, c2, c3] <+: l.drop q := by
  have hq3 : q + 2 < l.length := by
    by_contra hc
    rw [List.getElem?_eq_none (by omega)] at h3
    cases h3
  have e1 : l[q] = c1 := by
    have := List.getElem?_eq_getElem (l := l) (n := q) (by omega)
    rw [this] at h1
    exact Option.some.inj h1
  have e2 : l[q + 1] = c2 := by
    have := List.getElem?_eq_getElem (l := l) (n := q + 1) (by omega)
    rw [this] at h2
    exact Option.some.inj h2
  have e3 : l[q + 2] = c3 := by
    have := List.getElem?_eq_getElem (l := l) (n := q + 2) (by omega)
    rw [this] at h3
    exact Option.some.inj h3
  rw [List.drop_eq_getElem_cons (by omega), List.drop_eq_getElem_cons (by omega),
    List.drop_eq_getElem_cons (by omega), e1, e2, e3]
  exact ⟨l.drop (q + 3), rfl⟩

theorem a7_length (t : String) : (('\n' :: t.data) ++ ['\n']).length = t.data.length + 2 := by
  rw [List.length_append, List.length_cons]
  rfl

theorem composite_getElem_zero (t : String) (b : List Char) :
    ((('\n' :: t.data) ++ ['\n']) ++ b)[0]? = some '\n' := by
  rw [List.getElem?_append_left (by rw [a7_length]; omega),
    List.getElem?_append_left (by rw [List.length_cons]; omega)]
  simp

theorem composite_getElem_t (t : String) (b : List Char) (i : Nat)
    (h1 : 1 ≤ i) (h2 : i ≤ t.data.length) :
    ((('\n' :: t.data) ++ ['\n']) ++ b)[i]? = t.data[i - 1]? := by
  rw [List.getElem?_append_left (by rw [a7_length]; omega),
    List.getElem?_append_left (by rw [List.length_cons]; omega)]
  match i, h1 with
  | i + 1, _ =>
    rw [List.getElem?_cons_succ]
    rfl

theorem composite_getElem_nl2 (t : String) (b : List Char) :
    ((('\n' :: t.data) ++ ['\n']) ++ b)[t.data.length + 1]? = some '\n' := by
  rw [List.getElem?_append_left (by rw [a7_length]; omega),
    List.getElem?_append_right (by rw [List.length_cons])]
  rw [List.length_cons]
  simp

theorem no_window_a7 {t : String} (h : jsIncludes t "```" = false) (b : List Char) :
    ∀ p, p < (('\n' :: t.data) ++ ['\n']).length →
      ¬ ("```".data <+: ((('\n' :: t.data) ++ ['\n']) ++ b).drop p) := by
  intro p hp hpre
  have hw := prefix_drop_window hpre
  rw [a7_length] at hp
  have hplen : p < t.data.length + 2 := hp
  by_cases h0 : p = 0
  · subst h0
    rw [composite_getElem_zero] at hw
    exact absurd hw.1 (by decide)
  · by_cases hsmall : p + 2 ≤ t.data.length
    · obtain ⟨q, rfl⟩ : ∃ q, p = q + 1 := ⟨p - 1, by omega⟩
      rw [composite_getElem_t t b (q + 1) (by omega) (by omega)] at hw
      have k1 : ((('\n' :: t.data) ++ ['\n']) ++ b)[q + 1 + 1]? = t.data[q + 1]? := by
        rw [composite_getElem_t t b (q + 2) (by omega) (by omega)]
        rfl
      have k2 : ((('\n' :: t.data) ++ ['\n']) ++ b)[q + 1 + 2]? = t.data[q + 2]? := by
        rw [composite_getElem_t t b (q + 3) (by omega) (by omega)]
        rfl
      rw [k1] at hw
      rw [k2] at hw
      have hwin := window_prefix hw.1 hw.2.1 hw.2.2
      exact no_tb_window h q hwin
    · have hnl := composite_getElem_nl2 t b
      have hcase : p = t.data.length + 1 ∨ p + 1 = t.data.length + 1 ∨
          p + 2 = t.data.length + 1 := by omega
      rcases hcase with e | e | e
      · rw [← e] at hnl
        rw [hw.1] at hnl
        exact absurd hnl (by decide)
      · rw [← e] at hnl
        rw [hw.2.1] at hnl
        exact absurd hnl (by decide)
      · rw [← e] at hnl
        rw [hw.2.2] at hnl
        exact absurd hnl (by decide)

theorem not_infix_of_no_prefix_drop {x l : List Char}
    (h : ∀ p, ¬ x <+: l.drop p) : ¬ x <:+: l := by
  intro hinf
  rcases hinf with ⟨a, b, hab⟩
  refine h a.length ?_
  rw [← hab, List.append_assoc, List.drop_left]
  exact List.prefix_append x b

theorem no_sep7_rest7 {t : String} (h : jsIncludes t "```" = false) :
    ∀ p, ¬ ("```json".data <+: ((('\n' :: t.data) ++ ['\n']) ++ "```".data).drop p) := by
  intro p hpre
  by_cases hp : p < (('\n' :: t.data) ++ ['\n']).length
  · exact no_window_a7 h "```".data p hp ((by decide : ("```".data : List Char) <+: "```json".data).trans hpre)
  · have hlen := hpre.length_le
    rw [List.length_drop, List.length_append, a7_length,
      show ("```json".data : List Char).length = 7 from rfl,
      show ("```".data : List Char).length = 3 from rfl] at hlen
    rw [a7_length] at hp
    omega

theorem no_sep7_in_rest7 {t : String} (h : jsIncludes t "```" = false) :
    ¬ ("```json".data <:+: ((('\n' :: t.data) ++ ['\n']) ++ "```".data)) :=
  not_infix_of_no_prefix_drop (no_sep7_rest7 h)

theorem no_tb_a7 {t : String} (h : jsIncludes t "```" = false) :
    ¬ ("```".data <:+: (('\n' :: t.data) ++ ['\n'])) := by
  apply not_infix_of_no_prefix_drop
  intro p hpre
  by_cases hp : p < (('\n' :: t.data) ++ ['\n']).length
  · have := no_window_a7 h [] p hp
    rw [List.append_nil] at this
    exact this hpre
  · have hlen := hpre.length_le
    rw [List.length_drop, a7_length,
      show ("```".data : List Char).length = 3 from rfl] at hlen
    rw [a7_length] at hp
    omega

theorem no_sep7_l2 {t : String} (h : jsIncludes t "```" = false) :
    ¬ ("```json".data <:+:
        ("```".data ++ ((('\n' :: t.data) ++ ['\n']) ++ "```".data))) := by
  apply not_infix_of_no_prefix_drop
  intro p hpre
  match p with
  | 0 =>
    rw [List.drop_zero] at hpre
    rw [show ("```json".data : List Char) = "```".data ++ "json".data from rfl] at hpre
    have hj := (List.prefix_append_right_inj "```".data).mp hpre
    rcases hj with ⟨u, hu⟩
    have h0 := congrArg (fun l => l[0]?) hu
    dsimp only at h0
    rw [composite_getElem_zero] at h0
    have hj0 : ("json".data ++ u)[0]? = some 'j' := by
      rw [List.getElem?_append_left (by decide)]
      rfl
    rw [hj0] at h0
    exact absurd h0 (by decide)
  | 1 =>
    have hw := prefix_drop_window ((by decide :
      ("```".data : List Char) <+: "```json".data).trans hpre)
    have h3 : ("```".data ++ ((('\n' :: t.data) ++ ['\n']) ++ "```".data))[3]? = some '\n' := by
      rw [List.getElem?_append_right (by decide)]
      exact composite_getElem_zero t "```".data
    rw [show (1 + 2 : Nat) = 3 from rfl] at hw
    rw [hw.2.2] at h3
    exact absurd h3 (by decide)
  | 2 =>
    have hw := prefix_drop_window ((by decide :
      ("```".data : List Char) <+: "```json".data).trans hpre)
    have h3 : ("```".data ++ ((('\n' :: t.data) ++ ['\n']) ++ "```".data))[3]? = some '\n' := by
      rw [List.getElem?_append_right (by decide)]
      exact composite_getElem_zero t "```".data
    rw [show (2 + 1 : Nat) = 3 from rfl] at hw
    rw [hw.2.1] at h3
    exact absurd h3 (by decide)
  | p + 3 =>
    refine no_sep7_rest7 h p ?_
    rw [show p + 3 = ("```".data : List Char).length + p from by
      rw [show ("```".data : List Char).length = 3 from rfl]; omega] at hpre
    rw [List.drop_append] at hpre
    exact hpre

theorem jsTrimL_pad (l : List Char) : jsTrimL (('\n' :: l) ++ ['\n']) = jsTrimL l := by
  unfold jsTrimL
  rw [List.cons_append, List.dropWhile_cons, if_pos (by decide)]
  rw [List.dropWhile_append]
  by_cases he : (l.dropWhile isJsWs).isEmpty
  · rw [if_pos he, List.isEmpty_iff.mp he]
    rfl
  · rw [if_neg he, List.reverse_append,
      show (['\n'] : List Char).reverse = ['\n'] from rfl, List.singleton_append,
      List.dropWhile_cons, if_pos (by decide)]

theorem jsTrim_pad (t : String) :
    jsTrim (String.mk (('\n' :: t.data) ++ ['\n'])) = jsTrim t := by
  unfold jsTrim
  rw [show (String.mk (('\n' :: t.data) ++ ['\n'])).data = ('\n' :: t.data) ++ ['\n'] from rfl]
  rw [jsTrimL_pad]

theorem no_occurrence_includes_false {s sub : String} (h : ¬ sub.data <:+: s.data) :
    jsIncludes s sub = false := by
  unfold jsIncludes jsSplit
  rw [splitAux_no_occ h]
  rfl

theorem wrapJson_data (t : String) : (wrapJsonFence t).data =
    "```json".data ++ ((('\n' :: t.data) ++ ['\n']) ++ "```".data) := by
  show ("```json\n" ++ t ++ "\n```").data = _
  rw [String.data_append, String.data_append,
    show ("```json\n".data : List Char) = "```json".data ++ ['\n'] from rfl,
    show ("\n```".data : List Char) = '\n' :: "```".data from rfl]
  simp [List.append_assoc]

theorem wrapTicks_data (t : String) : (wrapTicksFence t).data =
    "```".data ++ ((('\n' :: t.data) ++ ['\n']) ++ "```".data) := by
  show ("```\n" ++ t ++ "\n```").data = _
  rw [String.data_append, String.data_append,
    show ("```\n".data : List Char) = "```".data ++ ['\n'] from rfl,
    show ("\n```".data : List Char) = '\n' :: "```".data from rfl]
  simp [List.append_assoc]

theorem jsSplit_wrapJson_fenceJson {t : String} (h : jsIncludes t "```" = false) :
    jsSplit (wrapJsonFence t) fenceJson =
      ["", String.mk ((('\n' :: t.data) ++ ['\n']) ++ "```".data)] := by
  unfold jsSplit
  rw [show fenceJson.data = "```json".data from rfl, wrapJson_data]
  rw [splitAux_head_match (by decide)]
  rw [splitAux_no_occ (no_sep7_in_rest7 h)]
  rfl

theorem jsSplit_rest7_ticks {t : String} (h : jsIncludes t "```" = false) :
    jsSplit (String.mk ((('\n' :: t.data) ++ ['\n']) ++ "```".data)) fenceTicks =
      [String.mk (('\n' :: t.data) ++ ['\n']), ""] := by
  unfold jsSplit
  rw [show fenceTicks.data = "```".data from rfl,
    show (String.mk ((('\n' :: t.data) ++ ['\n']) ++ "```".data)).data =
      (('\n' :: t.data) ++ ['\n']) ++ "```".data from rfl]
  rw [show ((('\n' :: t.data) ++ ['\n']) ++ "```".data).length + 1 =
      (('\n' :: t.data) ++ ['\n']).length + (3 + 1) from by
    rw [List.length_append, show ("```".data : List Char).length = 3 from rfl]]
  rw [splitAux_walk _ (no_window_a7 h "```".data)]
  have hm := @splitAux_head_match "```".data []
    ((('\n' :: t.data) ++ ['\n']).reverse ++ []) (by decide) 3
  rw [List.append_nil] at hm
  rw [hm, splitAux_nil]
  simp

theorem jsSplit_wrapTicks_ticks {t : String} (h : jsIncludes t "```" = false) :
    jsSplit (wrapTicksFence t) fenceTicks =
      ["", String.mk (('\n' :: t.data) ++ ['\n']), ""] := by
  unfold jsSplit
  rw [show fenceTicks.data = "```".data from rfl, wrapTicks_data]
  rw [splitAux_head_match (by decide)]
  rw [show ("```".data ++ ((('\n' :: t.data) ++ ['\n']) ++ "```".data)).length =
      (('\n' :: t.data) ++ ['\n']).length + (5 + 1) from by
    rw [List.length_append, List.length_append,
      show ("```".data : List Char).length = 3 from rfl]
    omega]
  rw [splitAux_walk _ (no_window_a7 h "```".data)]
  have hm := @splitAux_head_match "```".data []
    ((('\n' :: t.data) ++ ['\n']).reverse ++ []) (by decide) 5
  rw [List.append_nil] at hm
  rw [hm, splitAux_nil]
  simp

theorem jsSplit_a7_ticks {t : String} (h : jsIncludes t "```" = false) :
    jsSplit (String.mk (('\n' :: t.data) ++ ['\n'])) fenceTicks =
      [String.mk (('\n' :: t.data) ++ ['\n'])] := by
  unfold jsSplit
  rw [show fenceTicks.data = "```".data from rfl,
    show (String.mk (('\n' :: t.data) ++ ['\n'])).data = ('\n' :: t.data) ++ ['\n'] from rfl]
  rw [splitAux_no_occ (no_tb_a7 h)]
  rfl

theorem includes_t_fenceJson {t : String} (h : jsIncludes t "```" = false) :
    jsIncludes t fenceJson = false := by
  apply no_occurrence_includes_false
  intro hinf
  have h2 := occurs_gives_includes t "```" (by decide)
    (((by decide : ("```".data : List Char) <+: "```json".data)).isInfix.trans hinf)
  rw [h] at h2
  cases h2

theorem includes_wrapTicks_fenceJson {t : String} (h : jsIncludes t "```" = false) :
    jsIncludes (wrapTicksFence t) fenceJson = false := by
  apply no_occurrence_includes_false
  rw [wrapTicks_data, show (fenceJson.data : List Char) = "```json".data from rfl]
  exact no_sep7_l2 h

theorem stripFence_wrapJson {t : String} (h : jsIncludes t "```" = false) :
    stripFence (wrapJsonFence t) = String.mk (('\n' :: t.data) ++ ['\n']) := by
  unfold stripFence
  rw [show jsIncludes (wrapJsonFence t) fenceJson = true from by
      unfold jsIncludes
      rw [jsSplit_wrapJson_fenceJson h]
      rfl,
    if_pos rfl, jsSplit_wrapJson_fenceJson h]
  rw [show (["", String.mk ((('\n' :: t.data) ++ ['\n']) ++ "```".data)].getD 1 "") =
      String.mk ((('\n' :: t.data) ++ ['\n']) ++ "```".data) from rfl]
  rw [jsSplit_rest7_ticks h]
  rfl

theorem stripFence_wrapTicks {t : String} (h : jsIncludes t "```" = false) :
    stripFence (wrapTicksFence t) = String.mk (('\n' :: t.data) ++ ['\n']) := by
  unfold stripFence
  rw [includes_wrapTicks_fenceJson h, if_neg (by simp)]
  rw [show jsIncludes (wrapTicksFence t) fenceTicks = true from by
      unfold jsIncludes
      rw [jsSplit_wrapTicks_ticks h]
      rfl,
    if_pos rfl, jsSplit_wrapTicks_ticks h]
  rw [show (["", String.mk (('\n' :: t.data) ++ ['\n']), ""].getD 1 "") =
      String.mk (('\n' :: t.data) ++ ['\n']) from rfl]
  rw [jsSplit_a7_ticks h]
  rfl

theorem stripFence_id {t : String} (h : jsIncludes t "```" = false) :
    stripFence t = t := by
  unfold stripFence
  rw [includes_t_fenceJson h, if_neg (by simp),
    show (fenceTicks : String) = "```" from rfl, h, if_neg (by simp)]

/-- Claim C3 (amended): for a response text containing no triple backtick,
wrapping it in a `` ```json `` fence or a plain `` ``` `` fence and then
applying the shaping step's fence stripping yields exactly the same parsed
JSON as the unwrapped response. -/
theorem claim_C3 (t : String) (h : jsIncludes t "```" = false) :
    stripAndParse (wrapJsonFence t) = Json.parse (jsTrim t) ∧
    stripAndParse (wrapTicksFence t) = Json.parse (jsTrim t) ∧
    stripAndParse t = Json.parse (jsTrim t) := by
  refine ⟨?_, ?_, ?_⟩
  · unfold stripAndParse
    rw [stripFence_wrapJson h, jsTrim_pad]
  · unfold stripAndParse
    rw [stripFence_wrapTicks h, jsTrim_pad]
  · unfold stripAndParse
    rw [stripFence_id h]

/-- Witness for C3 at a concrete JSON text. -/
theorem claim_C3_witness :
    stripAndParse (wrapJsonFence "7") = Json.parse (jsTrim "7") ∧
    stripAndParse (wrapTicksFence "7") = Json.parse (jsTrim "7") ∧
    Json.parse (jsTrim "7") = some (Json.num 7) :=
  ⟨(claim_C3 "7" (by decide)).1, (claim_C3 "7" (by decide)).2.1, rfl⟩

/-- Counterexample to C3 as stated: a valid JSON text containing a triple
backtick parses unwrapped, but its fenced version is mangled by the strip
and no longer parses. -/
theorem claim_C3_counterexample :
    Json.parse (jsTrim "\"a```b\"") = some (Json.str "a```b") ∧
    stripAndParse (wrapJsonFence "\"a```b\"") = none := by
  exact ⟨rfl, rfl⟩

end Casefile
